import Mathlib

/-!
# Formal model of the jade-signer keystore and RPC layer

A shallow embedding of the jade-signer-rpc sources.  Pure Rust functions
become Lean functions on `List Nat` byte strings; fallible Rust code
returns `Except`.  The cryptographic primitive modules (keccak-256, the
scrypt/pbkdf2 derivation, the AES-128 block function and the secp256k1
public-key map) are not part of the sources being modelled; following the
specification they are abstracted into a `CryptoPrim` record of function
parameters, while the structure that the keystore builds on top of them
(CTR mode, the MAC layout, the keyfile record) is translated directly
from `src/keystore/mod.rs`, `src/rpc/serves.rs`, `src/util/typed.rs`,
`src/storage/storage_ctrl.rs` and `src/mnemonic/hd_path.rs`.
-/

deriving instance DecidableEq for Except

namespace JadeSigner

/-- Byte strings are lists of naturals; each byte is a value below 256. -/
abbrev Bytes := List Nat

/-- Big-endian interpretation of a byte string as a natural number. -/
def bytesToNatBE (bs : Bytes) : Nat := bs.foldl (fun acc b => acc * 256 + b) 0

/-- Big-endian encoding of a natural number into a fixed number of bytes. -/
def natToBytesBE : Nat → Nat → Bytes
  | 0, _ => []
  | n + 1, v => natToBytesBE n (v / 256) ++ [v % 256]

/-- UTF-8 encoding of a single unicode codepoint. -/
def utf8Cp (c : Nat) : List Nat :=
  if c < 0x80 then [c]
  else if c < 0x800 then [0xC0 + c / 64, 0x80 + c % 64]
  else if c < 0x10000 then [0xE0 + c / 4096, 0x80 + c / 64 % 64, 0x80 + c % 64]
  else [0xF0 + c / 262144, 0x80 + c / 4096 % 64, 0x80 + c / 64 % 64, 0x80 + c % 64]

/-- Encoding a string into its UTF-8 bytes (Rust strings are UTF-8 byte strings). -/
def utf8Bytes (s : String) : Bytes := (s.data.map (fun ch => utf8Cp ch.toNat)).flatten

/-- Lowercase hex rendering of one byte. -/
def hexOfByte (b : Nat) : String :=
  let digit := fun (d : Nat) => String.singleton (if d < 10 then Char.ofNat (48 + d) else Char.ofNat (87 + d))
  digit (b / 16 % 16) ++ digit (b % 16)

/-- Lowercase hex rendering of a byte string. -/
def bytesToHex (bs : Bytes) : String := String.join (bs.map hexOfByte)

/-- Value of one hex digit, if the character is a hex digit. -/
def hexDigit? (c : Char) : Option Nat :=
  if 48 ≤ c.toNat ∧ c.toNat ≤ 57 then some (c.toNat - 48)
  else if 97 ≤ c.toNat ∧ c.toNat ≤ 102 then some (c.toNat - 87)
  else if 65 ≤ c.toNat ∧ c.toNat ≤ 70 then some (c.toNat - 55)
  else none

/-- Decoding of a hex string into bytes, as the Rust hex crate does it:
the length must be even and every character a hex digit. -/
def hexDecodeChars : List Char → Except String Bytes
  | [] => Except.ok []
  | [_] => Except.error ("Odd number of digits")
  | hi :: lo :: rest =>
    match hexDigit? hi, hexDigit? lo with
    | some h, some l => (hexDecodeChars rest).map (fun bs => (h * 16 + l) :: bs)
    | _, _ => Except.error ("Invalid character")

/-- Decoding of a hex string into bytes. -/
def hexDecode (s : String) : Except String Bytes := hexDecodeChars s.data

/-- Boolean prefix test on strings (`str::starts_with`). -/
def strStartsWithB (s pre : String) : Bool := pre.data.isPrefixOf s.data

/-- Boolean suffix test on strings (`str::ends_with`). -/
def strEndsWithB (s suf : String) : Bool := suf.data.isSuffixOf s.data

/-- Strict lexicographic order on character lists by codepoint; for the
strings involved this is the Rust byte-lexicographic string order. -/
def lexLtChars : List Char → List Char → Bool
  | [], [] => false
  | [], _ :: _ => true
  | _ :: _, [] => false
  | a :: as, b :: bs =>
    if a.toNat < b.toNat then true
    else if b.toNat < a.toNat then false
    else lexLtChars as bs

/-- Strict lexicographic order on strings. -/
def strLtB (a b : String) : Bool := lexLtChars a.data b.data

/-- Lexicographic order on strings. -/
def strLeB (a b : String) : Bool := !(lexLtChars b.data a.data)

/-- Splitting a character list at a separator (`str::split`). -/
def splitChar (sep : Char) : List Char → List (List Char)
  | [] => [[]]
  | c :: rest =>
    if c = sep then [] :: splitChar sep rest
    else
      match splitChar sep rest with
      | hd :: tl => (c :: hd) :: tl
      | [] => [[c]]

/-- Value of a decimal digit. -/
def decDigit? (c : Char) : Option Nat :=
  if 48 ≤ c.toNat ∧ c.toNat ≤ 57 then some (c.toNat - 48) else none

/-- Decimal parsing of a `u32` (`str::parse::<u32>`): the digits must be
non-empty and the value below 2^32. -/
def parseNatDec (s : List Char) : Option Nat :=
  match s with
  | [] => none
  | ds =>
    (ds.foldlM (fun acc c => (decDigit? c).map (fun d => acc * 10 + d)) 0).bind
      (fun v => if v < 2 ^ 32 then some v else none)

/-! Section: keystore data model

Translated from `src/keystore/mod.rs`.  The serializer module carrying
`CoreCrypto` is absent from the sources, so its record shape is modelled
from the specification (section 3, KeyFile): a cipher name, a 16-byte IV,
the 32-byte encrypted key, KDF parameters with a 32-byte salt and
`dklen = 32`, and a 32-byte MAC. -/

/-- Pseudo-random function selector for PBKDF2. -/
inductive Prf
  | hmacSha256
deriving DecidableEq

/-- Key derivation function, `scrypt` or `pbkdf2` (from the spec, the kdf
module being absent from the sources). -/
inductive Kdf
  | scrypt (n r p : Nat)
  | pbkdf2 (prf : Prf) (c : Nat)
deriving DecidableEq

/-- Cipher algorithm identifier; only `aes-128-ctr` exists. -/
inductive Cipher
  | aes128Ctr
deriving DecidableEq

/-- KDF parameters as stored in a keyfile. -/
structure KdfParams where
  kdf : Kdf
  dklen : Nat
  salt : Bytes
deriving DecidableEq

/-- Cipher parameters as stored in a keyfile. -/
structure CipherParams where
  iv : Bytes
deriving DecidableEq

/-- Record for the `crypto` section of a keyfile. -/
structure CoreCrypto where
  cipher : Cipher
  cipher_params : CipherParams
  cipher_text : Bytes
  kdf_params : KdfParams
  mac : Bytes
deriving DecidableEq

/-- Variants of the `crypto` section; only the Web3 Secret Storage variant
`Core` exists (`CryptoType` in `src/keystore/mod.rs`). -/
inductive CryptoType
  | core (c : CoreCrypto)
deriving DecidableEq

/-- A UUID modelled as its 128-bit value; the Rust `Uuid` ordering is the
lexicographic order of its 16 bytes, which coincides with the numeric
order of this value. -/
abbrev Uuid := Nat

/-- A 20-byte account address. -/
abbrev Address := Bytes

/-- A keystore file, translated from `KeyFile` in `src/keystore/mod.rs`. -/
structure KeyFile where
  visible : Option Bool
  name : Option String
  description : Option String
  address : Address
  uuid : Uuid
  crypto : CryptoType
deriving DecidableEq

/-- Modelled from the spec: the primitive cryptographic functions.  Their
implementations (keccak-256, scrypt, PBKDF2-HMAC-SHA256, the AES-128
block function and the secp256k1 public-key map) live in modules that are
not part of the sources; every keystore operation is parametric in them. -/
structure CryptoPrim where
  keccak256 : Bytes → Bytes
  kdfDerive : Kdf → Nat → Bytes → String → Bytes
  aesBlock : Bytes → Bytes → Bytes
  pubkey : Bytes → Bytes

/-- Normalisation of an AES block to exactly 16 bytes (a real AES block
function always returns 16 bytes). -/
def padBlock (bs : Bytes) : Bytes := bs.take 16 ++ List.replicate (16 - bs.length) 0

/-- Big-endian increment of the 128-bit CTR counter. -/
def incIv (iv : Bytes) : Bytes := natToBytesBE 16 ((bytesToNatBE iv + 1) % 2 ^ 128)

/-- Successive keystream blocks of CTR mode. -/
def ctrKeystreamBlocks (aes : Bytes → Bytes → Bytes) (key iv : Bytes) : Nat → List Bytes
  | 0 => []
  | n + 1 => padBlock (aes key iv) :: ctrKeystreamBlocks aes key (incIv iv) n

/-- Truncation to the first `n` bytes of the CTR keystream. -/
def ctrKeystream (aes : Bytes → Bytes → Bytes) (key iv : Bytes) (n : Nat) : Bytes :=
  ((ctrKeystreamBlocks aes key iv ((n + 15) / 16)).flatten).take n

/-- Modelled from the spec: AES-128-CTR encryption, `plaintext XOR
keystream`; the identical call decrypts (section 4.1). -/
def ctrEncrypt (aes : Bytes → Bytes → Bytes) (data key iv : Bytes) : Bytes :=
  List.zipWith Nat.xor data (ctrKeystream aes key iv data.length)

/-- Translation of `Cipher::encrypt(data, key, iv)` from the spec (the cipher module is
absent from the sources). -/
def Cipher.encrypt (c : Cipher) (P : CryptoPrim) (data key iv : Bytes) : Bytes :=
  match c with
  | .aes128Ctr => ctrEncrypt P.aesBlock data key iv

/-- Keystore errors, translated from `src/keystore/error.rs`. -/
inductive KsError
  | unsupportedCipher (s : String)
  | unsupportedKdf (s : String)
  | unsupportedPrf (s : String)
  | failedMacValidation
  | coreFault (s : String)
  | invalidKdfDepth (s : String)
deriving DecidableEq

/-- Rendering (`Display`) of keystore errors, from the `fail(display)`
attributes in `src/keystore/error.rs`. -/
def ksErrorMessage : KsError → String
  | .unsupportedCipher s => ("Unsupported cipher: ") ++ s
  | .unsupportedKdf s => ("Unsupported key derivation function: ") ++ s
  | .unsupportedPrf s => ("Unsupported pseudo-random function: ") ++ s
  | .failedMacValidation => ("Message authentication code failed")
  | .coreFault s => s
  | .invalidKdfDepth s => ("Invalid security level: ") ++ s

/-- Translation of `KeyFile::decrypt_key` from `src/keystore/mod.rs`: derive, check the
MAC over `derived[16..32] ++ cipher_text`, then run the cipher. -/
def KeyFile.decrypt_key (kf : KeyFile) (P : CryptoPrim) (passphrase : String) :
    Except KsError Bytes :=
  match kf.crypto with
  | .core c =>
    let derived := P.kdfDerive c.kdf_params.kdf c.kdf_params.dklen c.kdf_params.salt passphrase
    let v := (derived.drop 16).take 16 ++ c.cipher_text
    if P.keccak256 v ≠ c.mac then Except.error KsError.failedMacValidation
    else Except.ok (c.cipher.encrypt P c.cipher_text (derived.take 16) c.cipher_params.iv)

/-- Modelled from the spec: `PrivateKey::to_address` (the core module is
absent from the sources) — the last 20 bytes of the keccak-256 of the
uncompressed public key (section 3, Address). -/
def toAddress (P : CryptoPrim) (pk : Bytes) : Address := (P.keccak256 (P.pubkey pk)).drop 12

/-- Translation of `KeyFile::decrypt_address` from `src/keystore/mod.rs`. -/
def KeyFile.decrypt_address (kf : KeyFile) (P : CryptoPrim) (password : String) :
    Except KsError Address :=
  (kf.decrypt_key P password).map (toAddress P)

/-- Translation of `KeyFile::encrypt_key_custom` from `src/keystore/mod.rs`.  The random
generator's effect is the pair of byte strings it fills in, passed as
`saltDraw` and `ivDraw`. -/
def KeyFile.encrypt_key_custom (kf : KeyFile) (P : CryptoPrim) (pk : Bytes)
    (passphrase : String) (saltDraw ivDraw : Bytes) : KeyFile :=
  match kf.crypto with
  | .core c0 =>
    let c1 := { c0 with kdf_params := { c0.kdf_params with salt := saltDraw } }
    let derived := P.kdfDerive c1.kdf_params.kdf c1.kdf_params.dklen c1.kdf_params.salt passphrase
    let c2 := { c1 with cipher_params := { iv := ivDraw } }
    let ct := c2.cipher.encrypt P pk (derived.take 16) c2.cipher_params.iv
    let mac := P.keccak256 ((derived.drop 16).take 16 ++ ct)
    { kf with crypto := CryptoType.core { c2 with cipher_text := ct, mac := mac } }

/-- Translation of `CoreCrypto::default`: the serializer module is absent from the
sources, so the defaults are modelled from the spec (`aes-128-ctr`,
`dklen = 32`); every defaulted field other than `dklen` is overwritten by
`encrypt_key_custom` before use. -/
def defaultCoreCrypto : CoreCrypto :=
  { cipher := Cipher.aes128Ctr
    cipher_params := { iv := List.replicate 16 0 }
    cipher_text := []
    kdf_params := { kdf := Kdf.scrypt 4096 8 1, dklen := 32, salt := List.replicate 32 0 }
    mac := [] }

/-- Translation of `KeyFile::default` from `src/keystore/mod.rs`: visible, no name or
description, zero address and uuid, default crypto. -/
def defaultKeyFile : KeyFile :=
  { visible := some true
    name := none
    description := none
    address := List.replicate 20 0
    uuid := 0
    crypto := CryptoType.core defaultCoreCrypto }

/-- Values drawn from the random generator during one
`KeyFile::new_custom` call, in the order the Rust code draws them:
a UUID, then a 32-byte salt, then a 16-byte IV. -/
structure RngDraw where
  uuid : Uuid
  salt : Bytes
  iv : Bytes

/-- Translation of `KeyFile::new_custom` from `src/keystore/mod.rs`: build a default
keyfile with a freshly generated uuid, set the requested KDF, encrypt,
then derive the address by a decrypting round trip. -/
def KeyFile.new_custom (P : CryptoPrim) (pk : Bytes) (passphrase : String) (kdf : Kdf)
    (rng : RngDraw) (name description : Option String) : Except KsError KeyFile :=
  let kf := { defaultKeyFile with uuid := rng.uuid, name := name, description := description }
  let kf := match kf.crypto with
    | .core c => { kf with crypto := CryptoType.core { c with kdf_params := { c.kdf_params with kdf := kdf } } }
  let kf := kf.encrypt_key_custom P pk passphrase rng.salt rng.iv
  (kf.decrypt_address P passphrase).map (fun addr => { kf with address := addr })

/-- Translation of `PartialEq for KeyFile` from `src/keystore/mod.rs`: equality is by
uuid alone. -/
def kfBeq (a b : KeyFile) : Bool := a.uuid == b.uuid

/-- Translation of `Ord for KeyFile` from `src/keystore/mod.rs`: comparison is by uuid
alone (the byte-lexicographic uuid order, i.e. the numeric order of the
128-bit value). -/
def kfCmp (a b : KeyFile) : Ordering := compare a.uuid b.uuid

/-- Projection of the KDF stored in a keyfile's crypto section. -/
def KeyFile.kdf (kf : KeyFile) : Kdf :=
  match kf.crypto with
  | .core c => c.kdf_params.kdf

/-- Projection of the salt stored in a keyfile's crypto section. -/
def KeyFile.salt (kf : KeyFile) : Bytes :=
  match kf.crypto with
  | .core c => c.kdf_params.salt

/-- Projection of the IV stored in a keyfile's crypto section. -/
def KeyFile.iv (kf : KeyFile) : Bytes :=
  match kf.crypto with
  | .core c => c.cipher_params.iv

/-! Section: storage backends and the RPC service layer

The keyfile storage backends themselves (`src/storage/keyfile/*`) are
absent from the sources; a backend's observable state is modelled as a
list of keyfiles with the interface the specification gives (section
4.6).  The service functions are translated from `src/rpc/serves.rs`;
chain selection through the storage controller is modelled separately. -/

/-- Storage-layer errors (`storage::KeystoreError`; the module is absent
from the sources, the variants are those the spec and callers use). -/
inductive StKeystoreError
  | storageError (s : String)
  | notFound
deriving DecidableEq

/-- Modelled from the spec: the display message of a storage error. -/
def stMessage : StKeystoreError → String
  | .storageError s => s
  | .notFound => ("not found")

/-- Modelled from the spec: `search_by_address` returns the keyfile bound
to the address, or `NotFound` (section 4.6). -/
def search_by_address (store : List KeyFile) (addr : Address) : Except StKeystoreError KeyFile :=
  match store.find? (fun kf => kf.address == addr) with
  | some kf => Except.ok kf
  | none => Except.error StKeystoreError.notFound

/-- Modelled from the spec: `put` is overwrite-by-uuid — an existing entry
with the same uuid is replaced, otherwise the keyfile is appended
(section 4.6). -/
def putKeyFile (store : List KeyFile) (kf : KeyFile) : List KeyFile :=
  if store.any (fun e => e.uuid == kf.uuid) then
    store.map (fun e => if e.uuid == kf.uuid then kf else e)
  else store ++ [kf]

/-- RPC-layer errors, translated from `src/rpc/error.rs` (the transport
variants that carry foreign library values are omitted; no service
function modelled here produces them). -/
inductive RpcError
  | invalidDataFormat (s : String)
  | storageError (s : String)
  | contractAbiError (s : String)
  | mnemonicError (s : String)
  | typedDataError (s : String)
deriving DecidableEq

/-- Translation of `From<keystore::Error> for Error` in `src/rpc/error.rs`:
`InvalidDataFormat("keystore: " + err.to_string())`. -/
def rpcOfKeystore (e : KsError) : RpcError :=
  RpcError.invalidDataFormat (("keystore: ") ++ ksErrorMessage e)

/-- Translation of `From<storage::KeystoreError> for Error` in `src/rpc/error.rs`:
`StorageError(err.to_string())`. -/
def rpcOfStorage (e : StKeystoreError) : RpcError := RpcError.storageError (stMessage e)

/-- Modelled from the spec: `Address::from_str` (the core module is absent
from the sources) accepts a `0x`-prefixed 40-hex-digit string. -/
def addressFromStr (s : String) : Except String Address :=
  if strStartsWithB s ("0x") then
    match hexDecode (s.drop 2) with
    | Except.ok bs => if bs.length = 20 then Except.ok bs else Except.error ("Invalid address length")
    | Except.error e => Except.error e
  else Except.error ("Missing address prefix")

/-- Translation of `shake_account` from `src/rpc/serves.rs`: look the keyfile up by
address, decrypt with the old passphrase, re-encrypt with the new one via
`KeyFile::new_custom` (fresh uuid, salt and IV from the rng) keeping the
stored KDF, name and description, and store the result. -/
def shake_account (P : CryptoPrim) (store : List KeyFile)
    (address old_passphrase new_passphrase : String) (rng : RngDraw) :
    Except RpcError (Bool × List KeyFile) :=
  match addressFromStr address with
  | Except.error e => Except.error (RpcError.invalidDataFormat e)
  | Except.ok addr =>
    match search_by_address store addr with
    | Except.error e => Except.error (rpcOfStorage e)
    | Except.ok kf =>
      match kf.crypto with
      | .core c =>
        match kf.decrypt_key P old_passphrase with
        | Except.error e => Except.error (rpcOfKeystore e)
        | Except.ok pk =>
          match KeyFile.new_custom P pk new_passphrase c.kdf_params.kdf rng kf.name kf.description with
          | Except.error e => Except.error (rpcOfKeystore e)
          | Except.ok new_kf => Except.ok (true, putKeyFile store new_kf)

/-- Translation of `update_account` from `src/rpc/serves.rs`: overwrite the name and the
description only when the supplied strings are non-empty, then store. -/
def update_account (store : List KeyFile) (address name description : String) :
    Except RpcError (Bool × List KeyFile) :=
  match addressFromStr address with
  | Except.error e => Except.error (RpcError.invalidDataFormat e)
  | Except.ok addr =>
    match search_by_address store addr with
    | Except.error e => Except.error (rpcOfStorage e)
    | Except.ok kf0 =>
      let kf1 := if name ≠ "" then { kf0 with name := some name } else kf0
      let kf2 := if description ≠ "" then { kf1 with description := some description } else kf1
      Except.ok (true, putKeyFile store kf2)

/-- Translation of `sign` from `src/rpc/serves.rs`: personal-message hash, account
lookup, passphrase check, decrypt, sign.  The secp256k1 signing function
is a parameter (the core module is absent from the sources). -/
def serve_sign (P : CryptoPrim) (signHash : Bytes → Bytes → Bytes) (store : List KeyFile)
    (input address passphrase : String) : Except RpcError (List String) :=
  match addressFromStr address with
  | Except.error e => Except.error (RpcError.invalidDataFormat e)
  | Except.ok addr =>
    let hash := P.keccak256 (utf8Bytes
      (("\x19Ethereum Signed Message:\n") ++ toString (utf8Bytes input).length ++ input))
    match search_by_address store addr with
    | Except.ok kf =>
      if passphrase = "" then Except.error (RpcError.invalidDataFormat ("Missing passphrase"))
      else
        match kf.decrypt_key P passphrase with
        | Except.ok pk => Except.ok [bytesToHex (signHash pk hash)]
        | Except.error _ => Except.error (RpcError.invalidDataFormat ("Invalid passphrase"))
    | Except.error _ => Except.error (RpcError.invalidDataFormat ("Can't find account"))

/-- Translation of `sign_transaction` from `src/rpc/serves.rs`.  The transaction
parameter shape and its conversion live in the absent `rpc/common.rs` and
core modules, so the raw and converted transaction types and the signing
function are parameters; the control flow is the source's. -/
def serve_sign_transaction {RawTx Tx : Type} (P : CryptoPrim)
    (tryIntoTx : RawTx → Except String Tx) (toSignedRaw : Tx → Bytes → Bytes)
    (store : List KeyFile) (transaction : RawTx) (fromAddr passphrase : String) :
    Except RpcError (List String) :=
  match addressFromStr fromAddr with
  | Except.error e => Except.error (RpcError.invalidDataFormat e)
  | Except.ok addr =>
    match search_by_address store addr with
    | Except.ok kf =>
      match tryIntoTx transaction with
      | Except.ok tr =>
        if passphrase = "" then Except.error (RpcError.invalidDataFormat ("Missing passphrase"))
        else
          match kf.decrypt_key P passphrase with
          | Except.ok pk => Except.ok [bytesToHex (toSignedRaw tr pk)]
          | Except.error _ => Except.error (RpcError.invalidDataFormat ("Invalid passphrase"))
      | Except.error err => Except.error (RpcError.invalidDataFormat err)
    | Except.error _ => Except.error (RpcError.invalidDataFormat ("Can't find account"))

/-! Section: EIP-712 typed data hashing, translated from
`src/util/typed.rs`.  JSON values are a deep embedding; the external
ethabi encoder is modelled by its head-only word encoding as the spec
describes it (section 4.5). -/

/-- JSON values (`serde_json::Value`); objects keep their fields as an
association list with unique names. -/
inductive Json where
  | null
  | bool (b : Bool)
  | num (n : Int)
  | str (s : String)
  | arr (items : List Json)
  | obj (fields : List (String × Json))

mutual

/-- Size of a JSON value, used to provide the fueled encoder below with
enough fuel for any chain of recursive calls into the value. -/
def jsize : Json → Nat
  | .null => 1
  | .bool _ => 1
  | .num _ => 1
  | .str _ => 1
  | .arr items => 1 + jsizeItems items
  | .obj fields => 1 + jsizeFields fields

/-- Total size of a list of JSON values. -/
def jsizeItems : List Json → Nat
  | [] => 0
  | hd :: tl => jsize hd + jsizeItems tl

/-- Total size of the fields of a JSON object. -/
def jsizeFields : List (String × Json) → Nat
  | [] => 0
  | (_, v) :: tl => jsize v + jsizeFields tl

end

/-- One field declaration inside a `types` entry (`SanitizedType`). -/
structure SField where
  name : String
  kind : String
deriving DecidableEq

/-- Association-list rendering of `HashMap<TypeName, Vec<SanitizedType>>`. -/
abbrev TypesMap := List (String × List SField)

/-- Lookup in a JSON object (`serde_json` map `get`). -/
def jget (fields : List (String × Json)) (name : String) : Option Json :=
  match fields.find? (fun e => e.1 == name) with
  | some e => some e.2
  | none => none

/-- Lookup in the types map (`HashMap::get` / `contains_key`). -/
def lookupType (types : TypesMap) (k : String) : Option (List SField) :=
  match types.find? (fun e => e.1 == k) with
  | some e => some e.2
  | none => none

/-- Insertion into an association list with replacement, as `HashMap`
insertion behaves during deserialization (later keys win). -/
def insertKV {V : Type} (m : List (String × V)) (k : String) (v : V) : List (String × V) :=
  if m.any (fun e => e.1 == k) then m.map (fun e => if e.1 == k then (k, v) else e)
  else m ++ [(k, v)]

/-- Leading word characters of a type name — the `^\w*` matcher of
`TYPE_NAME_MATCHER` in `src/util/typed.rs` (for the ASCII names involved,
word characters are letters, digits and underscore). -/
def wordHead (s : String) : String :=
  String.mk (s.data.takeWhile (fun c => c.isAlphanum || c = '_'))

/-- Translation of `find_type_dependencies` from `src/util/typed.rs`: take
the word head of the type name, stop when it is already collected or not
a defined type, otherwise record it and fold over the fields, merging
each recursive result element that is not yet present.  The recursion is
fueled; `encode_type` supplies fuel `types.length + 1`, which the
accompanying lemmas show is never exhausted. -/
def findDepsF (types : TypesMap) : Nat → String → List String → List String
  | 0, _, results => results
  | fuel + 1, primaryType, results =>
    let pt := wordHead primaryType
    if pt ∈ results ∨ (lookupType types pt).isNone then results
    else
      ((lookupType types pt).getD []).foldl
        (fun acc field =>
          (findDepsF types fuel field.kind acc).foldl
            (fun acc2 dep => if dep ∈ acc2 then acc2 else acc2 ++ [dep]) acc)
        (results ++ [pt])

/-- Rendering of the field list of one type: `name1 type1,name2 type2`
written as `kind name` pairs joined by commas. -/
def renderFields (children : List SField) : String :=
  String.intercalate (",") (children.map (fun child => child.kind ++ (" ") ++ child.name))

/-- Rendering of one type as `T(kind1 name1,kind2 name2,...)`. -/
def renderType (types : TypesMap) (t : String) : String :=
  t ++ ("(") ++ renderFields ((lookupType types t).getD []) ++ (")")

/-- Ascending sort of a list of strings (`Vec::sort`); the Rust string
order is the byte-lexicographic order, which agrees with this character
order on the UTF-8 strings involved. -/
def sortStrings (l : List String) : List String :=
  List.insertionSort (fun a b : String => strLeB a b = true) l

/-- Translation of `encode_type` from `src/util/typed.rs`: collect the
dependencies, sort them, drop the primary type, put the primary type
first, and render every element of the chain, failing on undefined
types. -/
def encodeTypeE (types : TypesMap) (primaryType : String) : Except String String :=
  let deps := sortStrings (findDepsF types (types.length + 1) primaryType [])
  let deps := deps.filter (fun dep => dep != primaryType)
  (primaryType :: deps).foldlM
    (fun res t =>
      match lookupType types t with
      | none => Except.error (("No type definition specified: ") ++ t)
      | some _ => Except.ok (res ++ renderType types t))
    ("")

/-- Tokens handed to the abi encoder (`ethabi::Token`, restricted to the
variants `encode_field` produces). -/
inductive Token where
  | fixedBytes (bs : Bytes)
  | bool (b : Bool)
  | address (a : Bytes)
  | uint (v : Nat)
  | int (v : Nat)
deriving DecidableEq

/-- Modelled from the spec: the 32-byte head word of one token (section
4.5 per-field rules; every token here is head-only). -/
def tokenWord : Token → Bytes
  | .fixedBytes bs => bs ++ List.replicate (32 - bs.length) 0
  | .bool b => natToBytesBE 32 (if b then 1 else 0)
  | .address a => List.replicate 12 0 ++ a
  | .uint v => natToBytesBE 32 v
  | .int v => natToBytesBE 32 v

/-- Modelled from the spec: `ethabi::encode` on head-only tokens is the
concatenation of their 32-byte words. -/
def abiEncode (tokens : List Token) : Bytes := (tokens.map tokenWord).flatten

/-- Number parsing for `int*` and `uint*` fields (`U256::from_str`, which
the uint crate defines as hexadecimal with an optional `0x` prefix and at
most 64 digits). -/
def u256FromStrHex (s : String) : Except String Nat :=
  let t := if strStartsWithB s ("0x") then s.drop 2 else s
  if t.length = 0 ∨ 64 < t.length then Except.error ("failed to deserialize a number")
  else
    (t.data.foldlM (fun acc c => (hexDigit? c).map (fun d => acc * 16 + d)) 0).elim
      (Except.error ("failed to deserialize a number")) Except.ok

/-- String representation used for `int*` and `uint*` values: a JSON
string stays itself, a JSON number is formatted, anything else fails. -/
def numValueString : Json → Option String
  | .str s => some s
  | .num n => some (toString n)
  | _ => none

/-- Accepted names for `int*` fields in `encode_field`. -/
def intKinds : List String := ["int", "int8", "int16", "int32", "int64", "int128", "int256"]

/-- Accepted names for `uint*` fields in `encode_field`. -/
def uintKinds : List String := ["uint", "uint8", "uint16", "uint32", "uint64", "uint128", "uint256"]

/-- Position of the last `[` as `encode_field` computes it: the index of
the first match in the reversed name, or 0 when absent. -/
def revBracketIdx (kind : String) : Nat :=
  ((kind.data.reverse).findIdx? (fun c => c = '[')).getD 0

/-- Translation of one unrolling of `encode_field` from
`src/util/typed.rs`; the recursive occurrences (`encode_data` on a custom
type value and `encode_field` on array items) are the function
parameters. -/
def encodeFieldStep (keccak : Bytes → Bytes) (types : TypesMap)
    (dataF : String → Json → Except String Bytes)
    (fieldF : String → String → Option Json → Except String Token)
    (name kind : String) (value : Option Json) : Except String Token :=
  if (lookupType types kind).isSome then
    match value with
    | none => Except.ok (Token.fixedBytes (List.replicate 32 0))
    | some Json.null => Except.ok (Token.fixedBytes (List.replicate 32 0))
    | some data => (dataF kind data).map (fun enc => Token.fixedBytes (keccak enc))
  else
    match value with
    | none => Except.error (("missing value for field ") ++ name ++ (" of type ") ++ kind)
    | some v =>
      if strStartsWithB kind ("bytes") then
        match v with
        | .str s => (hexDecode s).map (fun bs => Token.fixedBytes (keccak bs))
        | _ => Except.error ("value of type \x27bytes*\x27 must be a hex-encoded string")
      else if kind = ("string") then
        match v with
        | .str s => Except.ok (Token.fixedBytes (keccak (utf8Bytes s)))
        | _ => Except.error ("value of type \x27string\x27 must be a string")
      else if strEndsWithB kind ("]") then
        let index := kind.length - 1 - revBracketIdx kind
        let parsedType := String.mk (kind.data.take index)
        match v with
        | .arr items =>
          (items.mapM (fun item => fieldF name parsedType (some item))).map
            (fun toks => Token.fixedBytes (keccak (abiEncode toks)))
        | _ => Except.error (("value of type \x27") ++ kind ++ ("\x27 must be an array"))
      else if kind = ("bool") then
        match v with
        | .bool b => Except.ok (Token.bool b)
        | _ => Except.error ("value of type \x27bool\x27 must be either true or false")
      else if kind = ("address") then
        match v with
        | .str s => (addressFromStr s).map Token.address
        | _ => Except.error ("value of type \x27address\x27 must be a hex-encoded string")
      else if intKinds.contains kind then
        match numValueString v with
        | some sr => (u256FromStrHex sr).map Token.int
        | none => Except.error ("value of type \x27int\x27 must be a hex-encoded string or a number")
      else if uintKinds.contains kind then
        match numValueString v with
        | some sr => (u256FromStrHex sr).map Token.uint
        | none => Except.error ("value of type \x27uint\x27 must be a hex-encoded string or a number")
      else Except.error (("unknown type ") ++ kind)

/-- Translation of one unrolling of `encode_data` from
`src/util/typed.rs`: the type hash token built from `encode_type`, the
message viewed as an object, one token per declared field, all abi
encoded.  The recursive occurrence (`encode_field`) is a parameter. -/
def encodeDataStep (keccak : Bytes → Bytes) (types : TypesMap)
    (fieldF : String → String → Option Json → Except String Token)
    (primaryType : String) (message : Json) : Except String Bytes :=
  match encodeTypeE types primaryType with
  | Except.error e => Except.error e
  | Except.ok ts =>
    let th := keccak (utf8Bytes ts)
    match message with
    | .obj data =>
      (((lookupType types primaryType).getD []).mapM
          (fun f => fieldF f.name f.kind (jget data f.name))).map
        (fun toks => abiEncode (Token.fixedBytes th :: toks))
    | _ => Except.error ("encode_data(message) argument should be a JSON object")

/-- Base of the fueled encoder; unreachable for the fuel the entry points
supply. -/
def encBottom :
    (String → Json → Except String Bytes) × (String → String → Option Json → Except String Token) :=
  (fun _ _ => Except.error ("recursion limit"),
   fun _ _ _ => Except.error ("recursion limit"))

/-- Fueled pair of mutually recursive encoders `encode_data` and
`encode_field`; recursion in the source strictly descends into the JSON
value, so every call consumes one fuel unit and the entry points supply
enough fuel for the whole value. -/
def encLevel (keccak : Bytes → Bytes) (types : TypesMap) :
    Nat → (String → Json → Except String Bytes) × (String → String → Option Json → Except String Token)
  | 0 => encBottom
  | n + 1 =>
    let prev := encLevel keccak types n
    (encodeDataStep keccak types prev.2, encodeFieldStep keccak types prev.1 prev.2)

/-- Translation of `encode_data` from `src/util/typed.rs` (entry point of
the fueled encoder). -/
def encode_data (keccak : Bytes → Bytes) (types : TypesMap) (primaryType : String)
    (message : Json) : Except String Bytes :=
  (encLevel keccak types (2 * jsize message + 2)).1 primaryType message

/-- Translation of `hash_struct` from `src/util/typed.rs`:
`keccak256(encode_data(primary_type, message, types))`. -/
def hash_struct (keccak : Bytes → Bytes) (primaryType : String) (message : Json)
    (types : TypesMap) : Except String Bytes :=
  (encode_data keccak types primaryType message).map keccak

/-- Output of `sanitize` in `src/util/typed.rs`. -/
structure SanitizedData where
  types : TypesMap
  domain : Json
  primaryType : String
  message : Json

/-- Deserialization of one `SanitizedType` from JSON: an object carrying
string fields `name` and `type`. -/
def sfieldOfJson : Json → Except String SField
  | .obj fs =>
    match jget fs ("name"), jget fs ("type") with
    | some (.str n), some (.str t) => Except.ok { name := n, kind := t }
    | _, _ => Except.error ("failed to deserialize types")
  | _ => Except.error ("failed to deserialize types")

/-- Deserialization of the `types` map from JSON (later duplicate keys
win, as with `HashMap` insertion). -/
def typesOfJson : Json → Except String TypesMap
  | .obj fs =>
    fs.foldlM
      (fun acc e =>
        match e.2 with
        | .arr items => (items.mapM sfieldOfJson).map (fun fl => insertKV acc e.1 fl)
        | _ => Except.error ("failed to deserialize types")) []
  | _ => Except.error ("failed to deserialize types")

/-- Translation of `sanitize` from `src/util/typed.rs`: the typed data
must be an object carrying `primaryType` (a string), `domain`, `message`
and a deserializable `types` map. -/
def sanitize (typed_data : Json) : Except String SanitizedData :=
  match typed_data with
  | .obj data =>
    match jget data ("primaryType") with
    | none => Except.error ("primaryType must not present in the TypedData object")
    | some ptv =>
      match ptv with
      | .str pt =>
        match jget data ("domain") with
        | none => Except.error ("domain must be present in the TypedData object")
        | some domain =>
          match jget data ("message") with
          | none => Except.error ("message must be present in the TypedData object")
          | some message =>
            match jget data ("types") with
            | none => Except.error ("types must be present in the TypedData object")
            | some tj =>
              (typesOfJson tj).map (fun types =>
                { types := types, domain := domain, primaryType := pt, message := message })
      | _ => Except.error ("failed to deserialize primaryType")
  | _ => Except.error ("TypedData parameter must be a JSON Object")

/-- Translation of `hash` from `src/util/typed.rs`: sanitize, hash the
domain under `EIP712Domain`, append the message hash unless the primary
type is `EIP712Domain` itself, and keccak the `0x19 0x01`-prefixed
payload. -/
def typedDataHash (keccak : Bytes → Bytes) (typed_data : Json) : Except String Bytes :=
  match sanitize typed_data with
  | Except.error e => Except.error e
  | Except.ok sd =>
    match hash_struct keccak ("EIP712Domain") sd.domain sd.types with
    | Except.error e => Except.error e
    | Except.ok domainHash =>
      let data := [0x19, 0x01] ++ domainHash
      if sd.primaryType ≠ ("EIP712Domain") then
        match hash_struct keccak sd.primaryType sd.message sd.types with
        | Except.error e => Except.error e
        | Except.ok msgHash => Except.ok (keccak (data ++ msgHash))
      else Except.ok (keccak data)

/-- Translation of `sign_typed_data` from `src/rpc/serves.rs`. -/
def serve_sign_typed_data (P : CryptoPrim) (signHash : Bytes → Bytes → Bytes)
    (store : List KeyFile) (address : String) (typed_data : Json) (passphrase : String) :
    Except RpcError (List String) :=
  match addressFromStr address with
  | Except.error e => Except.error (RpcError.invalidDataFormat e)
  | Except.ok addr =>
    match typedDataHash P.keccak256 typed_data with
    | Except.error e => Except.error (RpcError.typedDataError e)
    | Except.ok hash =>
      match search_by_address store addr with
      | Except.ok kf =>
        if passphrase = "" then Except.error (RpcError.invalidDataFormat ("Missing passphrase"))
        else
          match kf.decrypt_key P passphrase with
          | Except.ok pk => Except.ok [bytesToHex (signHash pk hash)]
          | Except.error _ => Except.error (RpcError.invalidDataFormat ("Invalid passphrase"))
      | Except.error _ => Except.error (RpcError.invalidDataFormat ("Can\x27t find account"))

/-! Section: storage controller, translated from
`src/storage/storage_ctrl.rs`, and the account listing interface of the
storage backends. -/

/-- Translation of `CHAIN_NAMES` from `src/storage/storage_ctrl.rs`. -/
def CHAIN_NAMES : List String :=
  ["eth", "morden", "ropsten", "rinkeby", "rootstock-main", "rootstock-test", "kovan",
   "etc", "etc-morden"]

/-- Translation of `StorageController`: one keyfile backend and one
contract backend per chain name; the backend types are parameters. -/
structure StorageController (K C : Type) where
  keyfile_storages : List (String × K)
  contract_storages : List (String × C)

/-- Lookup in an association list (`HashMap::get`). -/
def lookupKV {V : Type} (m : List (String × V)) (k : String) : Option V :=
  match m.find? (fun e => e.1 == k) with
  | some e => some e.2
  | none => none

/-- Translation of `StorageController::new`: insert a keyfile storage and
a contract storage for every chain name, built by the given builders. -/
def StorageController.new {K C : Type} (buildK : String → K) (buildC : String → C) :
    StorageController K C :=
  CHAIN_NAMES.foldl
    (fun st id =>
      { keyfile_storages := insertKV st.keyfile_storages id (buildK id)
        contract_storages := insertKV st.contract_storages id (buildC id) })
    { keyfile_storages := [], contract_storages := [] }

/-- Translation of `StorageController::get_keystore`: the keyfile storage
for the chain, or `StorageError("No storage for: <chain>")`. -/
def StorageController.get_keystore {K C : Type} (st : StorageController K C) (chain : String) :
    Except StKeystoreError K :=
  match lookupKV st.keyfile_storages chain with
  | some v => Except.ok v
  | none => Except.error (StKeystoreError.storageError (("No storage for: ") ++ chain))

/-- Translation of `StorageController::get_contracts`: the contract
storage for the chain, or `StorageError("No storage for: <chain>")`. -/
def StorageController.get_contracts {K C : Type} (st : StorageController K C) (chain : String) :
    Except StKeystoreError C :=
  match lookupKV st.contract_storages chain with
  | some v => Except.ok v
  | none => Except.error (StKeystoreError.storageError (("No storage for: ") ++ chain))

/-- Account metadata returned by `list_accounts` (`AccountInfo`). -/
structure AccountInfo where
  address : Address
  name : String
  description : String
  is_hidden : Bool
  is_hardware : Bool
deriving DecidableEq

/-- Projection of a keyfile to its listed account metadata. -/
def accountInfoOf (kf : KeyFile) : AccountInfo :=
  { address := kf.address
    name := kf.name.getD ("")
    description := kf.description.getD ("")
    is_hidden := !(kf.visible.getD true)
    is_hardware := false }

/-- Modelled from the spec: the keyfiles a backend lists — hidden accounts
are excluded unless `show_hidden`, and the result is sorted by uuid
ascending (section 4.6). -/
def list_accounts_keyfiles (show_hidden : Bool) (store : List KeyFile) : List KeyFile :=
  List.insertionSort (fun a b => a.uuid ≤ b.uuid)
    (store.filter (fun kf => show_hidden || kf.visible.getD true))

/-- Modelled from the spec: `list_accounts` returns the metadata of the
listed keyfiles (section 4.6). -/
def list_accounts (show_hidden : Bool) (store : List KeyFile) : List AccountInfo :=
  (list_accounts_keyfiles show_hidden store).map accountInfoOf

/-! Section: mnemonic import, translated from `src/rpc/serves.rs` and
`src/mnemonic/hd_path.rs`.  The BIP39 sentence handling and seed
stretching (`src/mnemonic/mod.rs`) and the BIP32 extended-key arithmetic
(the bitcoin crate) are absent, so they are function parameters. -/

/-- A BIP32 child number: a normal or hardened index below 2^31. -/
inductive ChildNumber where
  | normal (index : Nat)
  | hardened (index : Nat)
deriving DecidableEq

/-- `ChildNumber::from_normal_idx`: the index must be below 2^31. -/
def childFromNormalIdx (i : Nat) : Except String ChildNumber :=
  if i < 2 ^ 31 then Except.ok (ChildNumber.normal i)
  else Except.error ("Invalid child number format")

/-- `ChildNumber::from_hardened_idx`: the index must be below 2^31. -/
def childFromHardenedIdx (i : Nat) : Except String ChildNumber :=
  if i < 2 ^ 31 then Except.ok (ChildNumber.hardened i)
  else Except.error ("Invalid child number format")

/-- Translation of `HDPath::try_from` from `src/mnemonic/hd_path.rs`: the
path must start with `m/`; the remainder splits on `/`; a trailing
apostrophe marks a hardened index; each segment parses as an integer. -/
def hdPathTryFrom (path : String) : Except String (List ChildNumber) :=
  if strStartsWithB path ("m/") then
    (splitChar '/' (path.drop 2).data).mapM (fun seg =>
      let hardened := strEndsWithB (String.mk seg) ("\x27")
      let s := if hardened then seg.dropLast else seg
      match parseNatDec s with
      | some index =>
        if hardened then childFromHardenedIdx index else childFromNormalIdx index
      | none => Except.error ("Invalid HD path child index"))
  else Except.error ("Invalid HD path format")

/-- Security levels for the KDF (`KdfDepthLevel`). -/
inductive KdfDepthLevel where
  | normal
  | high
  | ultra
deriving DecidableEq

/-- Modelled from the spec: `Kdf::from(KdfDepthLevel)` maps the levels to
scrypt with `(N, r, p)` of `(2^12, 8, 1)`, `(2^18, 8, 1)` and
`(2^21, 8, 1)` (section 4.2; the kdf module is absent from the
sources). -/
def kdfFromLevel : KdfDepthLevel → Kdf
  | .normal => Kdf.scrypt (2 ^ 12) 8 1
  | .high => Kdf.scrypt (2 ^ 18) 8 1
  | .ultra => Kdf.scrypt (2 ^ 21) 8 1

/-- Parameter shape of `signer_importMnemonic` (`NewMnemonicAccount` in
the absent `rpc/common.rs`, fields as the callers use them). -/
structure NewMnemonicAccount where
  name : String
  description : String
  mnemonic : String
  hd_path : String
  passphrase : String

/-- Translation of `import_mnemonic` from `src/rpc/serves.rs` (non-Windows
branch): reject an empty passphrase, parse the mnemonic sentence, parse
the HD path, derive the private key from the seed of the sentence with an
empty mnemonic passphrase, and encrypt it under the account passphrase
via `KeyFile::new_custom`.  The mnemonic type `M`, its parser, the seed
stretcher and the BIP32 derivation are parameters (their modules are
absent from the sources). -/
def import_mnemonic {M : Type} (P : CryptoPrim)
    (tryFromMnemonic : String → Except String M) (seedOf : M → String → Bytes)
    (generateKey : List ChildNumber → Bytes → Except String Bytes)
    (store : List KeyFile) (account : NewMnemonicAccount) (sec : KdfDepthLevel)
    (rng : RngDraw) : Except RpcError (Address × List KeyFile) :=
  if account.passphrase = "" then Except.error (RpcError.invalidDataFormat ("Empty passphrase"))
  else
    match tryFromMnemonic account.mnemonic with
    | Except.error e => Except.error (RpcError.mnemonicError e)
    | Except.ok m =>
      match hdPathTryFrom account.hd_path with
      | Except.error e => Except.error (RpcError.mnemonicError e)
      | Except.ok path =>
        match generateKey path (seedOf m ("")) with
        | Except.error e => Except.error (RpcError.mnemonicError e)
        | Except.ok pk =>
          match KeyFile.new_custom P pk account.passphrase (kdfFromLevel sec) rng
              (some account.name) (some account.description) with
          | Except.error e => Except.error (rpcOfKeystore e)
          | Except.ok kf => Except.ok (kf.address, putKeyFile store kf)

/-- Intermediate keyfile of `KeyFile::new_custom` before encryption: the
default keyfile with the drawn uuid, the given name and description, and
the requested KDF installed in the crypto section. -/
def newCustomKF1 (kdf : Kdf) (rng : RngDraw) (name description : Option String) : KeyFile :=
  { visible := some true
    name := name
    description := description
    address := List.replicate 20 0
    uuid := rng.uuid
    crypto := CryptoType.core
      { defaultCoreCrypto with kdf_params := { defaultCoreCrypto.kdf_params with kdf := kdf } } }

/-- Keyfile produced by `KeyFile::new_custom`. -/
def newCustomResult (P : CryptoPrim) (pk : Bytes) (passphrase : String) (kdf : Kdf)
    (rng : RngDraw) (name description : Option String) : KeyFile :=
  { (newCustomKF1 kdf rng name description).encrypt_key_custom P pk passphrase rng.salt rng.iv
    with address := toAddress P pk }

/-- Concrete executable instantiation of the primitive functions, used to
evaluate the model on closed inputs. -/
def toyPrim : CryptoPrim :=
  { keccak256 := fun bs => List.replicate 32 (bs.foldl (fun a b => (a + b) % 256) 1)
    kdfDerive := fun _ _ salt pass =>
      List.replicate 32 (((utf8Bytes pass ++ salt).foldl (fun a b => a + b) 0) % 256)
    aesBlock := fun _ ctr => ctr
    pubkey := fun pk => pk ++ pk }

/-- Concrete rng draw used for building a stored keyfile. -/
def rngA : RngDraw := { uuid := 10, salt := List.replicate 32 3, iv := List.replicate 16 4 }

/-- Concrete rng draw used for a re-encryption. -/
def rngB : RngDraw := { uuid := 11, salt := List.replicate 32 5, iv := List.replicate 16 6 }

/-- Concrete stored keyfile: the 32-byte key `7 7 ... 7` encrypted under
passphrase `old` with the toy primitives. -/
def storedKF : KeyFile :=
  newCustomResult toyPrim (List.replicate 32 7) "old" (Kdf.scrypt 1024 8 1) rngA
    (some "n") (some "d")

/-- Hex string of the address of `storedKF` under the toy primitives. -/
def storedAddrHex : String :=
  "0xc1c1c1c1c1c1c1c1c1c1c1c1c1c1c1c1c1c1c1c1"

/-- Concrete minimal typed-data value whose hash succeeds. -/
def tinyTypedData : Json :=
  Json.obj
    [("primaryType", Json.str "EIP712Domain"),
     ("domain", Json.obj []),
     ("message", Json.obj []),
     ("types", Json.obj [("EIP712Domain", Json.arr [])])]

/-- Digest of `tinyTypedData` under the toy keccak. -/
def tinyTypedDataHash : Bytes :=
  match typedDataHash toyPrim.keccak256 tinyTypedData with
  | Except.ok v => v
  | Except.error _ => []

/-- Small concrete keyfile with uuid 1. -/
def kfSmallA : KeyFile := { defaultKeyFile with uuid := 1 }

/-- Small concrete keyfile with uuid 2, hidden. -/
def kfSmallB : KeyFile := { defaultKeyFile with uuid := 2, visible := some false }

instance : IsTotal KeyFile (fun a b : KeyFile => a.uuid ≤ b.uuid) :=
  ⟨fun a b => Nat.le_total a.uuid b.uuid⟩

instance : IsTrans KeyFile (fun a b : KeyFile => a.uuid ≤ b.uuid) :=
  ⟨fun _ _ _ h1 h2 => le_trans h1 h2⟩

/-- Sanitized form of `tinyTypedData`. -/
def tinySD : SanitizedData :=
  { types := [("EIP712Domain", [])]
    domain := Json.obj []
    primaryType := "EIP712Domain"
    message := Json.obj [] }

/-- Toy mnemonic parser for closed evaluations. -/
def toyMnemonicParse : String → Except String Unit := fun _ => Except.ok ()

/-- Toy seed stretcher for closed evaluations. -/
def toySeed : Unit → String → Bytes := fun _ _ => List.replicate 64 9

/-- Toy BIP32 derivation for closed evaluations. -/
def toyGenerateKey : List ChildNumber → Bytes → Except String Bytes :=
  fun _ _ => Except.ok (List.replicate 32 7)

/-- Concrete mnemonic import request. -/
def toyMnemonicAccount : NewMnemonicAccount :=
  { name := "n", description := "d", mnemonic := "w", hd_path := "m/0", passphrase := "p" }

/-- Keys of a types map. -/
def keysOf (types : TypesMap) : List String := types.map Prod.fst

/-- Number of defined type names not yet collected; the decreasing
measure of `find_type_dependencies`. -/
def unvisited (types : TypesMap) (V : List String) : Nat :=
  ((keysOf types).filter (fun k => decide (k ∉ V))).length

/-- Specification-side transitive reference relation between defined
types: `a` references `b` when some field of `a` has `b` as the word head
of its declared kind and `b` is itself defined, closed under
transitivity. -/
inductive TypeRefs (types : TypesMap) : String → String → Prop where
  | direct {a b : String} {fl : List SField} {f : SField} :
      lookupType types a = some fl → f ∈ fl → wordHead f.kind = b →
      b ∈ keysOf types → TypeRefs types a b
  | trans {a b c : String} : TypeRefs types a b → TypeRefs types b c → TypeRefs types a c

/-- Closure of a name list under the defined successors of `u`. -/
def SuccClosedIn (types : TypesMap) (u : String) (R : List String) : Prop :=
  ∀ (fl : List SField) (f : SField), lookupType types u = some fl → f ∈ fl →
    wordHead f.kind ∈ keysOf types → wordHead f.kind ∈ R

/-- Concatenation of a list of strings. -/
def strJoin : List String → String
  | [] => ""
  | s :: rest => s ++ strJoin rest

/-! Section: theorems. -/

/-- Length of a normalised AES block. -/
theorem padBlock_length (bs : Bytes) : (padBlock bs).length = 16 := by
  simp [padBlock]
  omega

/-- Total length of the keystream blocks. -/
theorem ctrKeystreamBlocks_flatten_length (aes : Bytes → Bytes → Bytes) (key : Bytes) :
    ∀ (k : Nat) (iv : Bytes), ((ctrKeystreamBlocks aes key iv k).flatten).length = 16 * k := by
  intro k
  induction k with
  | zero => intro iv; simp [ctrKeystreamBlocks]
  | succ n ih =>
    intro iv
    simp [ctrKeystreamBlocks, padBlock_length, ih]
    omega

/-- The CTR keystream has exactly the requested length. -/
theorem ctrKeystream_length (aes : Bytes → Bytes → Bytes) (key iv : Bytes) (n : Nat) :
    (ctrKeystream aes key iv n).length = n := by
  unfold ctrKeystream
  rw [List.length_take, ctrKeystreamBlocks_flatten_length]
  have h := Nat.div_add_mod (n + 15) 16
  have h2 : (n + 15) % 16 < 16 := Nat.mod_lt _ (by norm_num)
  omega

/-- XOR-ing twice with the same stream is the identity. -/
theorem zipWith_xor_cancel (a : List Nat) : ∀ b : List Nat, a.length ≤ b.length →
    List.zipWith Nat.xor (List.zipWith Nat.xor a b) b = a := by
  induction a with
  | nil => intro b _; simp
  | cons x xs ih =>
    intro b h
    cases b with
    | nil => simp at h
    | cons y ys =>
      simp only [List.zipWith_cons_cons]
      have hx : Nat.xor (Nat.xor x y) y = x := Nat.xor_cancel_right y x
      rw [hx, ih ys (by simpa using h)]

/-- CTR mode is its own inverse, for any block function. -/
theorem ctrEncrypt_inverse (aes : Bytes → Bytes → Bytes) (data key iv : Bytes) :
    ctrEncrypt aes (ctrEncrypt aes data key iv) key iv = data := by
  unfold ctrEncrypt
  have hl : (List.zipWith Nat.xor data (ctrKeystream aes key iv data.length)).length
      = data.length := by
    simp [ctrKeystream_length]
  rw [hl]
  exact zipWith_xor_cancel data _ (by simp [ctrKeystream_length])

/-- Decrypting right after encrypting recovers the private key: the MAC
recomputes identically, and the CTR cipher inverts itself. -/
theorem decrypt_encrypt_key_custom (P : CryptoPrim) (kf : KeyFile) (pk : Bytes)
    (passphrase : String) (saltDraw ivDraw : Bytes) :
    (kf.encrypt_key_custom P pk passphrase saltDraw ivDraw).decrypt_key P passphrase
      = Except.ok pk := by
  obtain ⟨visible, name, description, address, uuid, crypto⟩ := kf
  obtain ⟨c⟩ := crypto
  obtain ⟨cip, cparams, ct, kdfp, mc⟩ := c
  cases cip
  simp [KeyFile.encrypt_key_custom, KeyFile.decrypt_key, Cipher.encrypt,
    ctrEncrypt_inverse]

/-- Decrypting the address right after encrypting yields the address
derived from the private key. -/
theorem decrypt_address_encrypt_key_custom (P : CryptoPrim) (kf : KeyFile) (pk : Bytes)
    (passphrase : String) (saltDraw ivDraw : Bytes) :
    (kf.encrypt_key_custom P pk passphrase saltDraw ivDraw).decrypt_address P passphrase
      = Except.ok (toAddress P pk) := by
  simp [KeyFile.decrypt_address, decrypt_encrypt_key_custom, Except.map]

/-- Computation of `KeyFile::new_custom`: it always succeeds and returns
`newCustomResult`. -/
theorem new_custom_eq (P : CryptoPrim) (pk : Bytes) (passphrase : String) (kdf : Kdf)
    (rng : RngDraw) (name description : Option String) :
    KeyFile.new_custom P pk passphrase kdf rng name description
      = Except.ok (newCustomResult P pk passphrase kdf rng name description) := by
  have hstep : KeyFile.new_custom P pk passphrase kdf rng name description
      = (((newCustomKF1 kdf rng name description).encrypt_key_custom P pk passphrase rng.salt
            rng.iv).decrypt_address P passphrase).map
          (fun addr =>
            { (newCustomKF1 kdf rng name description).encrypt_key_custom P pk passphrase rng.salt
                rng.iv with address := addr }) := rfl
  rw [hstep, decrypt_address_encrypt_key_custom]
  rfl

/-- Characterisation of `KeyFile::new_custom`: it always succeeds, the
uuid, salt and IV are the rng draws, the name, description and KDF are
the arguments, the address is derived from the private key, and
decrypting with the same passphrase recovers the key. -/
theorem new_custom_char (P : CryptoPrim) (pk : Bytes) (passphrase : String) (kdf : Kdf)
    (rng : RngDraw) (name description : Option String) :
    ∃ kf, KeyFile.new_custom P pk passphrase kdf rng name description = Except.ok kf ∧
      kf.uuid = rng.uuid ∧ kf.name = name ∧ kf.description = description ∧
      kf.address = toAddress P pk ∧ kf.kdf = kdf ∧ kf.salt = rng.salt ∧ kf.iv = rng.iv ∧
      kf.decrypt_key P passphrase = Except.ok pk := by
  refine ⟨newCustomResult P pk passphrase kdf rng name description,
    new_custom_eq P pk passphrase kdf rng name description, rfl, rfl, rfl, rfl, rfl, rfl, rfl, ?_⟩
  exact decrypt_encrypt_key_custom P (newCustomKF1 kdf rng name description) pk passphrase
    rng.salt rng.iv

/-- C1: for every 32-byte private key, passphrase, and salt and IV drawn
during encryption, a keyfile produced by `encrypt_key_custom` decrypts
under the same passphrase back to the private key, and its decrypted
address is the address derived from that key. -/
theorem c1_encrypt_decrypt_roundtrip (P : CryptoPrim) (kf : KeyFile) (pk : Bytes)
    (passphrase : String) (saltDraw ivDraw : Bytes) (_hpk : pk.length = 32) :
    (kf.encrypt_key_custom P pk passphrase saltDraw ivDraw).decrypt_key P passphrase
        = Except.ok pk ∧
      (kf.encrypt_key_custom P pk passphrase saltDraw ivDraw).decrypt_address P passphrase
        = Except.ok (toAddress P pk) :=
  ⟨decrypt_encrypt_key_custom P kf pk passphrase saltDraw ivDraw,
   decrypt_address_encrypt_key_custom P kf pk passphrase saltDraw ivDraw⟩

/-- Witness for C1 at a concrete 32-byte key, passphrase, salt and IV. -/
theorem c1_encrypt_decrypt_roundtrip_witness :
    (List.replicate 32 7 : Bytes).length = 32 ∧
      ((defaultKeyFile.encrypt_key_custom toyPrim (List.replicate 32 7) "p"
            (List.replicate 32 1) (List.replicate 16 2)).decrypt_key toyPrim "p"
          = Except.ok (List.replicate 32 7) ∧
        (defaultKeyFile.encrypt_key_custom toyPrim (List.replicate 32 7) "p"
            (List.replicate 32 1) (List.replicate 16 2)).decrypt_address toyPrim "p"
          = Except.ok (toAddress toyPrim (List.replicate 32 7))) :=
  ⟨by decide,
   c1_encrypt_decrypt_roundtrip toyPrim defaultKeyFile (List.replicate 32 7) "p"
     (List.replicate 32 1) (List.replicate 16 2) (by decide)⟩

/-- C2: whenever the keccak-256 of `derived[16..32] ++ cipher_text`
differs from the stored MAC, `decrypt_key` fails with
`FailedMacValidation`, and the outcome does not depend on the cipher at
all — the MAC check precedes any cipher decryption. -/
theorem c2_mac_mismatch_fails (P : CryptoPrim) (kf : KeyFile) (passphrase : String)
    (c : CoreCrypto) (hc : kf.crypto = CryptoType.core c)
    (hmac : P.keccak256
        (((P.kdfDerive c.kdf_params.kdf c.kdf_params.dklen c.kdf_params.salt passphrase).drop
              16).take 16 ++ c.cipher_text) ≠ c.mac) :
    kf.decrypt_key P passphrase = Except.error KsError.failedMacValidation ∧
      ∀ aes2 : Bytes → Bytes → Bytes,
        kf.decrypt_key { P with aesBlock := aes2 } passphrase
          = Except.error KsError.failedMacValidation := by
  constructor
  · unfold KeyFile.decrypt_key
    rw [hc]
    exact if_pos hmac
  · intro aes2
    unfold KeyFile.decrypt_key
    rw [hc]
    exact if_pos hmac

/-- Witness for C2 at a concrete keyfile whose MAC does not match. -/
theorem c2_mac_mismatch_fails_witness :
    (defaultKeyFile.crypto = CryptoType.core defaultCoreCrypto ∧
      toyPrim.keccak256
        (((toyPrim.kdfDerive defaultCoreCrypto.kdf_params.kdf defaultCoreCrypto.kdf_params.dklen
              defaultCoreCrypto.kdf_params.salt "p").drop 16).take 16
          ++ defaultCoreCrypto.cipher_text) ≠ defaultCoreCrypto.mac) ∧
      (defaultKeyFile.decrypt_key toyPrim "p" = Except.error KsError.failedMacValidation ∧
        ∀ aes2 : Bytes → Bytes → Bytes,
          defaultKeyFile.decrypt_key { toyPrim with aesBlock := aes2 } "p"
            = Except.error KsError.failedMacValidation) :=
  ⟨⟨rfl, by decide⟩,
   c2_mac_mismatch_fails toyPrim defaultKeyFile "p" defaultCoreCrypto rfl (by decide)⟩

set_option maxRecDepth 400000 in
/-- C3 counterexample: at a concrete store, re-encrypting through
`shake_account` stores a keyfile whose uuid is the freshly drawn rng
uuid, not the uuid of the original keyfile — the claim that the shake
keeps the same UUID fails. -/
theorem c3_counterexample :
    shake_account toyPrim [storedKF] storedAddrHex "old" "new" rngB
        = Except.ok (true,
          [storedKF,
           newCustomResult toyPrim (List.replicate 32 7) "new" (Kdf.scrypt 1024 8 1) rngB
             (some "n") (some "d")]) ∧
      (newCustomResult toyPrim (List.replicate 32 7) "new" (Kdf.scrypt 1024 8 1) rngB
          (some "n") (some "d")).uuid ≠ storedKF.uuid := by
  constructor
  · decide
  · decide

/-- C3 (amended): for every stored keyfile whose address is consistent
with its key and whose old passphrase decrypts it, `shake_account` stores
a keyfile re-encrypted under the new passphrase with the freshly drawn
salt and IV, keeping the same KDF, address, name and description — but
the uuid is the freshly drawn rng uuid rather than the original one. -/
theorem c3_shake_account_fields (P : CryptoPrim) (store : List KeyFile)
    (address old_pass new_pass : String) (rng : RngDraw) (addr : Address) (kf : KeyFile)
    (pk : Bytes) (haddr : addressFromStr address = Except.ok addr)
    (hfind : search_by_address store addr = Except.ok kf)
    (hdk : kf.decrypt_key P old_pass = Except.ok pk)
    (haddr2 : kf.address = toAddress P pk) :
    ∃ nkf, shake_account P store address old_pass new_pass rng
        = Except.ok (true, putKeyFile store nkf) ∧
      nkf.kdf = kf.kdf ∧ nkf.address = kf.address ∧ nkf.name = kf.name ∧
      nkf.description = kf.description ∧ nkf.salt = rng.salt ∧ nkf.iv = rng.iv ∧
      nkf.uuid = rng.uuid ∧ nkf.decrypt_key P new_pass = Except.ok pk := by
  cases hc2 : kf.crypto with
  | core c =>
    simp only [shake_account, haddr, hfind, hc2, hdk, new_custom_eq]
    refine ⟨newCustomResult P pk new_pass c.kdf_params.kdf rng kf.name kf.description,
      rfl, ?_, ?_, rfl, rfl, rfl, rfl, rfl, ?_⟩
    · show c.kdf_params.kdf = kf.kdf
      unfold KeyFile.kdf
      rw [hc2]
    · show toAddress P pk = kf.address
      exact haddr2.symm
    · exact decrypt_encrypt_key_custom P
        (newCustomKF1 c.kdf_params.kdf rng kf.name kf.description) pk new_pass rng.salt rng.iv

set_option maxRecDepth 400000 in
/-- Witness for the amended C3 at the concrete store. -/
theorem c3_shake_account_fields_witness :
    (addressFromStr storedAddrHex = Except.ok (List.replicate 20 193) ∧
      search_by_address [storedKF] (List.replicate 20 193) = Except.ok storedKF ∧
      storedKF.decrypt_key toyPrim "old" = Except.ok (List.replicate 32 7) ∧
      storedKF.address = toAddress toyPrim (List.replicate 32 7)) ∧
    (∃ nkf, shake_account toyPrim [storedKF] storedAddrHex "old" "new" rngB
        = Except.ok (true, putKeyFile [storedKF] nkf) ∧
      nkf.kdf = storedKF.kdf ∧ nkf.address = storedKF.address ∧ nkf.name = storedKF.name ∧
      nkf.description = storedKF.description ∧ nkf.salt = rngB.salt ∧ nkf.iv = rngB.iv ∧
      nkf.uuid = rngB.uuid ∧ nkf.decrypt_key toyPrim "new" = Except.ok (List.replicate 32 7)) :=
  ⟨⟨by decide, by decide, by decide, by decide⟩,
   c3_shake_account_fields toyPrim [storedKF] storedAddrHex "old" "new" rngB
     (List.replicate 20 193) storedKF (List.replicate 32 7)
     (by decide) (by decide) (by decide) (by decide)⟩

set_option maxRecDepth 400000 in
/-- C4 counterexample: at a concrete store and a wrong passphrase,
`shake_account` returns the keystore error message rather than the opaque
`Invalid passphrase` — the claim that every decrypting RPC operation
hides the MAC failure fails for `signer_shakeAccount`. -/
theorem c4_counterexample :
    shake_account toyPrim [storedKF] storedAddrHex "x" "new" rngB
        = Except.error
          (RpcError.invalidDataFormat ("keystore: Message authentication code failed")) ∧
      RpcError.invalidDataFormat ("keystore: Message authentication code failed")
        ≠ RpcError.invalidDataFormat ("Invalid passphrase") := by
  constructor
  · decide
  · decide

/-- C4 (amended): when MAC validation fails, `signer_sign`,
`signer_signTransaction` and `signer_signTypedData` return the opaque
message `Invalid passphrase`, but `signer_shakeAccount` surfaces the
keystore detail `keystore: Message authentication code failed`. -/
theorem c4_error_opacity {RawTx Tx : Type} (P : CryptoPrim) (signHash : Bytes → Bytes → Bytes)
    (tryIntoTx : RawTx → Except String Tx) (toSignedRaw : Tx → Bytes → Bytes)
    (store : List KeyFile) (input address passphrase new_pass : String) (rawTx : RawTx)
    (td : Json) (h : Bytes) (rng : RngDraw) (addr : Address) (kf : KeyFile) (tx : Tx)
    (haddr : addressFromStr address = Except.ok addr)
    (hfind : search_by_address store addr = Except.ok kf)
    (hp : passphrase ≠ "")
    (htx : tryIntoTx rawTx = Except.ok tx)
    (hhash : typedDataHash P.keccak256 td = Except.ok h)
    (hdk : kf.decrypt_key P passphrase = Except.error KsError.failedMacValidation) :
    serve_sign P signHash store input address passphrase
        = Except.error (RpcError.invalidDataFormat ("Invalid passphrase")) ∧
      serve_sign_transaction P tryIntoTx toSignedRaw store rawTx address passphrase
        = Except.error (RpcError.invalidDataFormat ("Invalid passphrase")) ∧
      serve_sign_typed_data P signHash store address td passphrase
        = Except.error (RpcError.invalidDataFormat ("Invalid passphrase")) ∧
      shake_account P store address passphrase new_pass rng
        = Except.error
          (RpcError.invalidDataFormat ("keystore: Message authentication code failed")) := by
  refine ⟨?_, ?_, ?_, ?_⟩
  · simp only [serve_sign, haddr, hfind, if_neg hp, hdk]
  · simp only [serve_sign_transaction, haddr, hfind, htx, if_neg hp, hdk]
  · simp only [serve_sign_typed_data, haddr, hhash, hfind, if_neg hp, hdk]
  · cases hc2 : kf.crypto with
    | core c =>
      simp only [shake_account, haddr, hfind, hc2, hdk]
      rfl

set_option maxRecDepth 400000 in
/-- Witness for the amended C4 at the concrete store and wrong
passphrase. -/
theorem c4_error_opacity_witness :
    (addressFromStr storedAddrHex = Except.ok (List.replicate 20 193) ∧
      search_by_address [storedKF] (List.replicate 20 193) = Except.ok storedKF ∧
      ("x" : String) ≠ "" ∧
      typedDataHash toyPrim.keccak256 tinyTypedData = Except.ok tinyTypedDataHash ∧
      storedKF.decrypt_key toyPrim "x" = Except.error KsError.failedMacValidation) ∧
    (serve_sign toyPrim (fun _ _ => []) [storedKF] "m" storedAddrHex "x"
        = Except.error (RpcError.invalidDataFormat ("Invalid passphrase")) ∧
      serve_sign_transaction toyPrim (fun _ : Unit => Except.ok ()) (fun _ _ => [])
          [storedKF] () storedAddrHex "x"
        = Except.error (RpcError.invalidDataFormat ("Invalid passphrase")) ∧
      serve_sign_typed_data toyPrim (fun _ _ => []) [storedKF] storedAddrHex tinyTypedData "x"
        = Except.error (RpcError.invalidDataFormat ("Invalid passphrase")) ∧
      shake_account toyPrim [storedKF] storedAddrHex "x" "new" rngB
        = Except.error
          (RpcError.invalidDataFormat ("keystore: Message authentication code failed"))) :=
  ⟨⟨by decide, by decide, by decide, rfl, by decide⟩,
   c4_error_opacity toyPrim (fun _ _ => []) (fun _ : Unit => Except.ok ()) (fun _ _ => [])
     [storedKF] "m" storedAddrHex "x" "new" () tinyTypedData tinyTypedDataHash rngB
     (List.replicate 20 193) storedKF ()
     (by decide) (by decide) (by decide) (by decide) rfl (by decide)⟩

/-- C9: `signer_updateAccount` overwrites the stored name only when the
supplied name is non-empty and the stored description only when the
supplied description is non-empty; the uuid, address and crypto block are
unchanged, and the call returns true. -/
theorem c9_update_account_frame (store : List KeyFile) (address name description : String)
    (addr : Address) (kf : KeyFile)
    (haddr : addressFromStr address = Except.ok addr)
    (hfind : search_by_address store addr = Except.ok kf) :
    ∃ kf2, update_account store address name description
        = Except.ok (true, putKeyFile store kf2) ∧
      kf2.uuid = kf.uuid ∧ kf2.address = kf.address ∧ kf2.crypto = kf.crypto ∧
      kf2.name = (if name = "" then kf.name else some name) ∧
      kf2.description = (if description = "" then kf.description else some description) := by
  by_cases hn : name = ""
  · by_cases hd : description = ""
    · exact ⟨kf, by simp [update_account, haddr, hfind, hn, hd], rfl, rfl, rfl,
        by simp [hn], by simp [hd]⟩
    · exact ⟨{ kf with description := some description },
        by simp [update_account, haddr, hfind, hn, hd], rfl, rfl, rfl,
        by simp [hn], by simp [hd]⟩
  · by_cases hd : description = ""
    · exact ⟨{ kf with name := some name },
        by simp [update_account, haddr, hfind, hn, hd], rfl, rfl, rfl,
        by simp [hn], by simp [hd]⟩
    · exact ⟨{ kf with name := some name, description := some description },
        by simp [update_account, haddr, hfind, hn, hd], rfl, rfl, rfl,
        by simp [hn], by simp [hd]⟩

set_option maxRecDepth 400000 in
/-- Witness for C9 at the concrete store: a non-empty name and an empty
description. -/
theorem c9_update_account_frame_witness :
    (addressFromStr storedAddrHex = Except.ok (List.replicate 20 193) ∧
      search_by_address [storedKF] (List.replicate 20 193) = Except.ok storedKF) ∧
    (∃ kf2, update_account [storedKF] storedAddrHex "N" ""
        = Except.ok (true, putKeyFile [storedKF] kf2) ∧
      kf2.uuid = storedKF.uuid ∧ kf2.address = storedKF.address ∧
      kf2.crypto = storedKF.crypto ∧
      kf2.name = (if ("N" : String) = "" then storedKF.name else some "N") ∧
      kf2.description
        = (if ("" : String) = "" then storedKF.description else some "")) :=
  ⟨⟨by decide, by decide⟩,
   c9_update_account_frame [storedKF] storedAddrHex "N" "" (List.replicate 20 193) storedKF
     (by decide) (by decide)⟩

/-- Lookup in a key-value list built by mapping over a list of keys. -/
theorem lookupKV_map {V : Type} (v : String → V) :
    ∀ (names : List String) (chain : String),
      lookupKV (names.map (fun n => (n, v n))) chain
        = if chain ∈ names then some (v chain) else none := by
  intro names
  induction names with
  | nil => intro chain; simp [lookupKV]
  | cons n ns ih =>
    intro chain
    by_cases h : n = chain
    · subst h
      simp [lookupKV, List.find?]
    · simp only [List.map_cons, lookupKV, List.find?]
      have hbeq : (n == chain) = false := by simp [h]
      simp only [hbeq]
      have := ih chain
      simp only [lookupKV] at this
      rw [this]
      simp [List.mem_cons, Ne.symm h]

/-- Lookup misses an appended binding with a different key. -/
theorem lookupKV_append_single_none {V : Type} (m : List (String × V)) (k n : String) (v : V)
    (hm : lookupKV m k = none) (hk : k ≠ n) : lookupKV (m ++ [(n, v)]) k = none := by
  induction m with
  | nil =>
    have hbeq : (n == k) = false := by simp [Ne.symm hk]
    simp [lookupKV, List.find?, hbeq]
  | cons e rest ih =>
    simp only [lookupKV, List.find?] at hm ⊢
    cases hbeq : (e.1 == k) with
    | true => simp [hbeq] at hm
    | false =>
      simp only [hbeq] at hm ⊢
      exact ih hm

/-- Insertion appends when the key is absent. -/
theorem insertKV_absent {V : Type} (m : List (String × V)) (k : String) (v : V)
    (hm : lookupKV m k = none) : insertKV m k v = m ++ [(k, v)] := by
  have hany : m.any (fun e => e.1 == k) = false := by
    induction m with
    | nil => simp
    | cons e rest ih =>
      simp only [lookupKV, List.find?] at hm
      cases hbeq : (e.1 == k) with
      | true => simp [hbeq] at hm
      | false =>
        simp only [hbeq] at hm
        simp [hbeq, ih hm]
  simp [insertKV, hany]

/-- Folding the controller construction over distinct fresh chain names
appends one binding per name to each map. -/
theorem controller_fold_eq {K C : Type} (buildK : String → K) (buildC : String → C) :
    ∀ (names : List String) (st : StorageController K C),
      names.Nodup →
      (∀ n ∈ names, lookupKV st.keyfile_storages n = none) →
      (∀ n ∈ names, lookupKV st.contract_storages n = none) →
      names.foldl
          (fun st id =>
            { keyfile_storages := insertKV st.keyfile_storages id (buildK id)
              contract_storages := insertKV st.contract_storages id (buildC id) }) st
        = { keyfile_storages := st.keyfile_storages ++ names.map (fun n => (n, buildK n))
            contract_storages := st.contract_storages ++ names.map (fun n => (n, buildC n)) } := by
  intro names
  induction names with
  | nil => intro st _ _ _; simp
  | cons n ns ih =>
    intro st hnd hk hc
    have hk0 : lookupKV st.keyfile_storages n = none := hk n (by simp)
    have hc0 : lookupKV st.contract_storages n = none := hc n (by simp)
    simp only [List.foldl_cons]
    rw [ih _ hnd.of_cons ?_ ?_]
    · simp only [insertKV_absent _ _ _ hk0, insertKV_absent _ _ _ hc0]
      simp [List.map_cons, List.append_assoc]
    · intro m hm
      have hne : m ≠ n := by
        intro hEq
        exact (List.nodup_cons.mp hnd).1 (hEq ▸ hm)
      simp only [insertKV_absent _ _ _ hk0]
      exact lookupKV_append_single_none _ _ _ _ (hk m (by simp [hm])) hne
    · intro m hm
      have hne : m ≠ n := by
        intro hEq
        exact (List.nodup_cons.mp hnd).1 (hEq ▸ hm)
      simp only [insertKV_absent _ _ _ hc0]
      exact lookupKV_append_single_none _ _ _ _ (hc m (by simp [hm])) hne

/-- C8: on a freshly constructed controller, `get_keystore` and
`get_contracts` succeed exactly for the nine chain names and fail with
`StorageError("No storage for: <chain>")` for every other chain. -/
theorem c8_chain_storage {K C : Type} (buildK : String → K) (buildC : String → C)
    (chain : String) :
    (StorageController.new buildK buildC).get_keystore chain
        = (if chain ∈ CHAIN_NAMES then Except.ok (buildK chain)
           else Except.error (StKeystoreError.storageError (("No storage for: ") ++ chain))) ∧
      (StorageController.new buildK buildC).get_contracts chain
        = (if chain ∈ CHAIN_NAMES then Except.ok (buildC chain)
           else Except.error (StKeystoreError.storageError (("No storage for: ") ++ chain))) := by
  have hnew : StorageController.new buildK buildC
      = { keyfile_storages := CHAIN_NAMES.map (fun n => (n, buildK n))
          contract_storages := CHAIN_NAMES.map (fun n => (n, buildC n)) } := by
    unfold StorageController.new
    rw [controller_fold_eq buildK buildC CHAIN_NAMES _ (by decide)
      (by intro n _; simp [lookupKV]) (by intro n _; simp [lookupKV])]
    simp
  rw [hnew]
  constructor
  · unfold StorageController.get_keystore
    rw [lookupKV_map]
    by_cases h : chain ∈ CHAIN_NAMES
    · simp [h]
    · simp [h]
  · unfold StorageController.get_contracts
    rw [lookupKV_map]
    by_cases h : chain ∈ CHAIN_NAMES
    · simp [h]
    · simp [h]

/-- Two lists of keyfiles that are permutations of one another, both
sorted by uuid, with pairwise distinct uuids, are equal. -/
theorem sorted_perm_eq_of_nodup_uuid :
    ∀ (l1 l2 : List KeyFile), l1.Perm l2 →
      l1.Sorted (fun a b : KeyFile => a.uuid ≤ b.uuid) →
      l2.Sorted (fun a b : KeyFile => a.uuid ≤ b.uuid) →
      (l1.map KeyFile.uuid).Nodup → l1 = l2 := by
  intro l1
  induction l1 with
  | nil =>
    intro l2 hperm _ _ _
    exact hperm.nil_eq 
  | cons a t1 ih =>
    intro l2 hperm hs1 hs2 hnd
    cases l2 with
    | nil => exact absurd hperm.symm (by simp [List.Perm])
    | cons b t2 =>
      have hab : a = b := by
        by_contra hne
        have hbmem : b ∈ a :: t1 := hperm.mem_iff.mpr (by simp)
        have hamem : a ∈ b :: t2 := hperm.mem_iff.mp (by simp)
        have hb1 : b ∈ t1 := by
          cases hbmem with
          | head => exact absurd rfl hne
          | tail _ h => exact h
        have ha2 : a ∈ t2 := by
          cases hamem with
          | head => exact absurd rfl hne
          | tail _ h => exact h
        have h1 : a.uuid ≤ b.uuid := List.rel_of_sorted_cons hs1 b hb1
        have h2 : b.uuid ≤ a.uuid := List.rel_of_sorted_cons hs2 a ha2
        have hequ : a.uuid = b.uuid := Nat.le_antisymm h1 h2
        have : a.uuid ∈ t1.map KeyFile.uuid := by
          rw [hequ]
          exact List.mem_map_of_mem KeyFile.uuid hb1
        exact (List.nodup_cons.mp hnd).1 this
      subst hab
      have hperm2 : t1.Perm t2 := hperm.cons_inv
      have := ih t2 hperm2 hs1.of_cons hs2.of_cons (List.nodup_cons.mp hnd).2
      rw [this]

/-- C7: keyfile equality holds exactly when the uuids are equal and the
keyfile ordering is the uuid comparison, whatever the other fields are;
the listed keyfiles are sorted by uuid ascending, `list_accounts` is
their metadata in that order, and the listing is deterministic: stores
equal up to permutation with distinct uuids list identically. -/
theorem c7_eq_ord_by_uuid :
    (∀ a b : KeyFile, (kfBeq a b = true ↔ a.uuid = b.uuid) ∧ kfCmp a b = compare a.uuid b.uuid) ∧
      (∀ (sh : Bool) (store : List KeyFile),
        (list_accounts_keyfiles sh store).Sorted (fun a b : KeyFile => a.uuid ≤ b.uuid) ∧
          list_accounts sh store = (list_accounts_keyfiles sh store).map accountInfoOf) ∧
      ∀ (sh : Bool) (s1 s2 : List KeyFile), s1.Perm s2 → (s1.map KeyFile.uuid).Nodup →
        list_accounts sh s1 = list_accounts sh s2 := by
  refine ⟨fun a b => ⟨by simp [kfBeq], rfl⟩, fun sh store => ⟨?_, rfl⟩, ?_⟩
  · exact List.sorted_insertionSort _ _
  · intro sh s1 s2 hperm hnd
    unfold list_accounts list_accounts_keyfiles
    congr 1
    have hfperm : (s1.filter (fun kf => sh || kf.visible.getD true)).Perm
        (s2.filter (fun kf => sh || kf.visible.getD true)) := hperm.filter _
    refine sorted_perm_eq_of_nodup_uuid _ _ ?_ ?_ ?_ ?_
    · exact ((List.perm_insertionSort _ _).trans hfperm).trans
        (List.perm_insertionSort _ _).symm
    · exact List.sorted_insertionSort _ _
    · exact List.sorted_insertionSort _ _
    · have hsub : ((s1.filter (fun kf => sh || kf.visible.getD true)).map KeyFile.uuid).Sublist
          (s1.map KeyFile.uuid) := (List.filter_sublist s1).map KeyFile.uuid
      have hndf : ((s1.filter (fun kf => sh || kf.visible.getD true)).map KeyFile.uuid).Nodup :=
        hnd.sublist hsub
      exact ((List.perm_insertionSort _ _).map KeyFile.uuid).nodup_iff.mpr hndf

/-- Witness for C7 determinism at two concrete permuted stores. -/
theorem c7_eq_ord_by_uuid_witness :
    (([kfSmallA, kfSmallB].Perm [kfSmallB, kfSmallA]) ∧
      (([kfSmallA, kfSmallB].map KeyFile.uuid).Nodup)) ∧
      list_accounts true [kfSmallA, kfSmallB] = list_accounts true [kfSmallB, kfSmallA] :=
  ⟨⟨List.Perm.swap kfSmallB kfSmallA [], by decide⟩,
   c7_eq_ord_by_uuid.2.2 true [kfSmallA, kfSmallB] [kfSmallB, kfSmallA]
     (List.Perm.swap kfSmallB kfSmallA []) (by decide)⟩

/-- C10: the private key imported by `signer_importMnemonic` is derived
from the seed of the mnemonic sentence with an empty mnemonic passphrase;
the caller-supplied passphrase only encrypts the resulting keyfile, so
two imports of the same mnemonic and hd_path yield the same private key
whatever their keyfile passphrases, names or security levels. -/
theorem c10_import_mnemonic_seed {M : Type} (P : CryptoPrim)
    (tryFromMnemonic : String → Except String M) (seedOf : M → String → Bytes)
    (generateKey : List ChildNumber → Bytes → Except String Bytes)
    (store : List KeyFile) (account : NewMnemonicAccount) (sec : KdfDepthLevel) (rng : RngDraw)
    (m : M) (path : List ChildNumber) (pk : Bytes)
    (hpass : account.passphrase ≠ "")
    (hm : tryFromMnemonic account.mnemonic = Except.ok m)
    (hpath : hdPathTryFrom account.hd_path = Except.ok path)
    (hkey : generateKey path (seedOf m ("")) = Except.ok pk) :
    (∃ kf, import_mnemonic P tryFromMnemonic seedOf generateKey store account sec rng
        = Except.ok (kf.address, putKeyFile store kf) ∧
      kf.decrypt_key P account.passphrase = Except.ok pk ∧
      kf.address = toAddress P pk ∧ kf.name = some account.name ∧
      kf.description = some account.description) ∧
      ∀ (account2 : NewMnemonicAccount) (rng2 : RngDraw) (sec2 : KdfDepthLevel),
        account2.mnemonic = account.mnemonic → account2.hd_path = account.hd_path →
        account2.passphrase ≠ "" →
        ∃ kf2, import_mnemonic P tryFromMnemonic seedOf generateKey store account2 sec2 rng2
            = Except.ok (kf2.address, putKeyFile store kf2) ∧
          kf2.decrypt_key P account2.passphrase = Except.ok pk := by
  constructor
  · simp only [import_mnemonic, if_neg hpass, hm, hpath, hkey, new_custom_eq]
    exact ⟨newCustomResult P pk account.passphrase (kdfFromLevel sec) rng
        (some account.name) (some account.description), rfl,
      decrypt_encrypt_key_custom P
        (newCustomKF1 (kdfFromLevel sec) rng (some account.name) (some account.description))
        pk account.passphrase rng.salt rng.iv, rfl, rfl, rfl⟩
  · intro account2 rng2 sec2 hm2 hp2 hpass2
    simp only [import_mnemonic, if_neg hpass2, hm2, hp2, hm, hpath, hkey, new_custom_eq]
    exact ⟨newCustomResult P pk account2.passphrase (kdfFromLevel sec2) rng2
        (some account2.name) (some account2.description), rfl,
      decrypt_encrypt_key_custom P
        (newCustomKF1 (kdfFromLevel sec2) rng2 (some account2.name) (some account2.description))
        pk account2.passphrase rng2.salt rng2.iv⟩

/-- Witness for C10 at a concrete account, rng and parameter functions. -/
theorem c10_import_mnemonic_seed_witness :
    (toyMnemonicAccount.passphrase ≠ "" ∧
      toyMnemonicParse toyMnemonicAccount.mnemonic = Except.ok () ∧
      hdPathTryFrom toyMnemonicAccount.hd_path = Except.ok [ChildNumber.normal 0] ∧
      toyGenerateKey [ChildNumber.normal 0] (toySeed () "")
        = Except.ok (List.replicate 32 7)) ∧
    ((∃ kf, import_mnemonic toyPrim toyMnemonicParse toySeed toyGenerateKey
          [] toyMnemonicAccount KdfDepthLevel.normal rngA
        = Except.ok (kf.address, putKeyFile [] kf) ∧
      kf.decrypt_key toyPrim toyMnemonicAccount.passphrase = Except.ok (List.replicate 32 7) ∧
      kf.address = toAddress toyPrim (List.replicate 32 7) ∧
      kf.name = some toyMnemonicAccount.name ∧
      kf.description = some toyMnemonicAccount.description) ∧
      ∀ (account2 : NewMnemonicAccount) (rng2 : RngDraw) (sec2 : KdfDepthLevel),
        account2.mnemonic = toyMnemonicAccount.mnemonic →
        account2.hd_path = toyMnemonicAccount.hd_path → account2.passphrase ≠ "" →
        ∃ kf2, import_mnemonic toyPrim toyMnemonicParse toySeed toyGenerateKey
            [] account2 sec2 rng2
            = Except.ok (kf2.address, putKeyFile [] kf2) ∧
          kf2.decrypt_key toyPrim account2.passphrase = Except.ok (List.replicate 32 7)) :=
  ⟨⟨by decide, rfl, by decide, rfl⟩,
   c10_import_mnemonic_seed toyPrim toyMnemonicParse toySeed toyGenerateKey
     [] toyMnemonicAccount KdfDepthLevel.normal rngA () [ChildNumber.normal 0]
     (List.replicate 32 7) (by decide) rfl (by decide) rfl⟩

/-- C5: for a typed-data value that sanitizes, the EIP-712 digest is the
keccak of `0x19 0x01` followed by the domain hash under `EIP712Domain`
and — unless the primary type is `EIP712Domain` itself, in which case it
is omitted — the message hash under the primary type. -/
theorem c5_eip712_digest (keccak : Bytes → Bytes) (td : Json) (sd : SanitizedData)
    (h : sanitize td = Except.ok sd) :
    typedDataHash keccak td
      = match hash_struct keccak ("EIP712Domain") sd.domain sd.types with
        | Except.error e => Except.error e
        | Except.ok dh =>
          if sd.primaryType = ("EIP712Domain") then Except.ok (keccak ([0x19, 0x01] ++ dh))
          else
            match hash_struct keccak sd.primaryType sd.message sd.types with
            | Except.error e => Except.error e
            | Except.ok mh => Except.ok (keccak ([0x19, 0x01] ++ dh ++ mh)) := by
  simp only [typedDataHash, h]
  cases hhs : hash_struct keccak ("EIP712Domain") sd.domain sd.types with
  | error e => rfl
  | ok dh =>
    by_cases hpt : sd.primaryType = ("EIP712Domain")
    · simp [hpt]
    · simp only [ne_eq, hpt, not_false_eq_true, if_true, if_false, ite_true, ite_false,
        if_neg hpt]

/-- Witness for C5 at a concrete typed-data value. -/
theorem c5_eip712_digest_witness :
    sanitize tinyTypedData = Except.ok tinySD ∧
      typedDataHash toyPrim.keccak256 tinyTypedData
        = match hash_struct toyPrim.keccak256 ("EIP712Domain") tinySD.domain tinySD.types with
          | Except.error e => Except.error e
          | Except.ok dh =>
            if tinySD.primaryType = ("EIP712Domain")
            then Except.ok (toyPrim.keccak256 ([0x19, 0x01] ++ dh))
            else
              match hash_struct toyPrim.keccak256 tinySD.primaryType tinySD.message
                  tinySD.types with
              | Except.error e => Except.error e
              | Except.ok mh => Except.ok (toyPrim.keccak256 ([0x19, 0x01] ++ dh ++ mh)) :=
  ⟨rfl, c5_eip712_digest toyPrim.keccak256 tinyTypedData tinySD rfl⟩

/-- Lookup in the types map succeeds exactly on its keys. -/
theorem lookupType_isSome_iff (types : TypesMap) (k : String) :
    (lookupType types k).isSome ↔ k ∈ keysOf types := by
  unfold lookupType
  cases hf : types.find? (fun e => e.1 == k) with
  | none =>
    simp only [Option.isSome_none, Bool.false_eq_true, false_iff]
    intro hk
    obtain ⟨e, he, hek⟩ := List.mem_map.mp hk
    have hs : (types.find? (fun e => e.1 == k)).isSome :=
      List.find?_isSome.mpr ⟨e, he, by simp [hek]⟩
    rw [hf] at hs
    simp at hs
  | some e =>
    simp only [Option.isSome_some, true_iff]
    have hp := List.find?_some hf
    have hmem := List.mem_of_find?_eq_some hf
    exact List.mem_map.mpr ⟨e, hmem, by simpa using hp⟩

/-- A fold whose step extends its accumulator by a prefix extends the
initial accumulator by a prefix. -/
theorem foldl_pref {α : Type} (step : List String → α → List String)
    (hstep : ∀ acc x, acc <+: step acc x) :
    ∀ (l : List α) (acc : List String), acc <+: l.foldl step acc := by
  intro l
  induction l with
  | nil => intro acc; exact List.prefix_rfl
  | cons x xs ih => intro acc; exact (hstep acc x).trans (ih (step acc x))

/-- Pushing a missing element extends the accumulator by a prefix. -/
theorem push_pref (acc2 : List String) (dep : String) :
    acc2 <+: (if dep ∈ acc2 then acc2 else acc2 ++ [dep]) := by
  by_cases h : dep ∈ acc2
  · simp only [if_pos h]
    exact List.prefix_rfl
  · simp only [if_neg h]
    exact List.prefix_append acc2 [dep]

/-- The collected list only ever grows, by a prefix. -/
theorem findDepsF_pref (types : TypesMap) :
    ∀ (fuel : Nat) (t : String) (acc : List String), acc <+: findDepsF types fuel t acc := by
  intro fuel t acc
  cases fuel with
  | zero => exact List.prefix_rfl
  | succ n =>
    unfold findDepsF
    by_cases hc : wordHead t ∈ acc ∨ (lookupType types (wordHead t)).isNone
    · simp only [if_pos hc]
      exact List.prefix_rfl
    · simp only [if_neg hc]
      refine (List.prefix_append acc [wordHead t]).trans ?_
      refine foldl_pref _ ?_ _ _
      intro acc0 field
      exact foldl_pref _ (fun a d => push_pref a d) _ acc0

/-- Pushing a missing element preserves distinctness. -/
theorem push_nodup (acc2 : List String) (dep : String) (h : acc2.Nodup) :
    (if dep ∈ acc2 then acc2 else acc2 ++ [dep]).Nodup := by
  by_cases hd : dep ∈ acc2
  · simpa [hd]
  · simp [hd, List.nodup_append, h, List.disjoint_singleton]

/-- A fold whose step preserves distinctness preserves distinctness. -/
theorem foldl_nodup {α : Type} (step : List String → α → List String)
    (hstep : ∀ acc x, acc.Nodup → (step acc x).Nodup) :
    ∀ (l : List α) (acc : List String), acc.Nodup → (l.foldl step acc).Nodup := by
  intro l
  induction l with
  | nil => intro acc h; exact h
  | cons x xs ih => intro acc h; exact ih (step acc x) (hstep acc x h)

/-- The collected list stays free of duplicates. -/
theorem findDepsF_nodup (types : TypesMap) :
    ∀ (fuel : Nat) (t : String) (acc : List String), acc.Nodup →
      (findDepsF types fuel t acc).Nodup := by
  intro fuel t acc h
  cases fuel with
  | zero => simpa [findDepsF]
  | succ n =>
    unfold findDepsF
    by_cases hc : wordHead t ∈ acc ∨ (lookupType types (wordHead t)).isNone
    · simp only [if_pos hc]
      exact h
    · simp only [if_neg hc]
      have hpt : wordHead t ∉ acc := fun hm => hc (Or.inl hm)
      have hstart : (acc ++ [wordHead t]).Nodup := by
        simp [List.nodup_append, h, hpt, List.disjoint_singleton]
      refine foldl_nodup _ ?_ _ _ hstart
      intro acc0 field h0
      exact foldl_nodup _ (fun a d hd => push_nodup a d hd)
        (findDepsF types n field.kind acc0) acc0 h0

/-- Merging skips every element already present. -/
theorem push_skip (acc : List String) :
    ∀ (l1 l2 : List String), (∀ d ∈ l1, d ∈ acc) →
      (l1 ++ l2).foldl (fun a d => if d ∈ a then a else a ++ [d]) acc
        = l2.foldl (fun a d => if d ∈ a then a else a ++ [d]) acc := by
  intro l1
  induction l1 with
  | nil => intro l2 _; rfl
  | cons d l1x ih =>
    intro l2 hmem
    simp only [List.cons_append, List.foldl_cons, if_pos (hmem d (by simp))]
    exact ih l2 (fun x hx => hmem x (by simp [hx]))

/-- Merging appends a block of fresh distinct elements verbatim. -/
theorem push_fresh :
    ∀ (ext acc : List String), ext.Nodup → (∀ d ∈ ext, d ∉ acc) →
      ext.foldl (fun a d => if d ∈ a then a else a ++ [d]) acc = acc ++ ext := by
  intro ext
  induction ext with
  | nil => intro acc _ _; simp
  | cons d extx ih =>
    intro acc hnd hdis
    simp only [List.foldl_cons, if_neg (hdis d (by simp))]
    rw [ih (acc ++ [d]) hnd.of_cons ?_]
    · simp
    · intro x hx
      simp only [List.mem_append, List.mem_singleton]
      rintro (hxa | hxd)
      · exact hdis x (by simp [hx]) hxa
      · exact (List.nodup_cons.mp hnd).1 (hxd ▸ hx)

/-- Merging a distinct extension of the accumulator returns it whole. -/
theorem push_collapse (acc ext : List String) (h : (acc ++ ext).Nodup) :
    (acc ++ ext).foldl (fun a d => if d ∈ a then a else a ++ [d]) acc = acc ++ ext := by
  rw [push_skip acc acc ext (fun d hd => hd)]
  have hnd2 := List.nodup_append.mp h
  exact push_fresh ext acc hnd2.2.1 (fun d hd hda => hnd2.2.2 hda hd)

/-- The merge loop of `find_type_dependencies` collapses: because the
recursive call only extends its accumulator, merging its result into the
accumulator yields the result itself. -/
theorem fold_push_eq (types : TypesMap) (n : Nat) :
    ∀ (flds : List SField) (start : List String), start.Nodup →
      flds.foldl
          (fun acc field =>
            (findDepsF types n field.kind acc).foldl
              (fun acc2 dep => if dep ∈ acc2 then acc2 else acc2 ++ [dep]) acc) start
        = flds.foldl (fun a f => findDepsF types n f.kind a) start := by
  intro flds
  induction flds with
  | nil => intro start _; rfl
  | cons f fl ih =>
    intro start hnd
    simp only [List.foldl_cons]
    have hndr : (findDepsF types n f.kind start).Nodup :=
      findDepsF_nodup types n f.kind start hnd
    obtain ⟨ext, hext⟩ := findDepsF_pref types n f.kind start
    have hcol : (findDepsF types n f.kind start).foldl
        (fun acc2 dep => if dep ∈ acc2 then acc2 else acc2 ++ [dep]) start
        = findDepsF types n f.kind start := by
      rw [← hext]
      exact push_collapse start ext (hext ▸ hndr)
    rw [hcol]
    exact ih _ hndr

/-- Unfolding of `find_type_dependencies` at a fresh defined type: push
the word head and fold the recursion over the fields. -/
theorem findDepsF_unfold (types : TypesMap) (n : Nat) (t : String) (acc : List String)
    (hnd : acc.Nodup) (hpt : wordHead t ∉ acc) (flds : List SField)
    (hl : lookupType types (wordHead t) = some flds) :
    findDepsF types (n + 1) t acc
      = flds.foldl (fun a f => findDepsF types n f.kind a) (acc ++ [wordHead t]) := by
  conv_lhs => unfold findDepsF
  simp only [hl, Option.isNone_some, Bool.false_eq_true, or_false, if_neg hpt,
    Option.getD_some]
  have hstart : (acc ++ [wordHead t]).Nodup := by
    simp [List.nodup_append, hnd, hpt, List.disjoint_singleton]
  exact fold_push_eq types n flds (acc ++ [wordHead t]) hstart

/-- Growing the collected list cannot increase the number of unvisited
keys. -/
theorem unvisited_mono (types : TypesMap) (V W : List String) (h : ∀ k, k ∈ V → k ∈ W) :
    unvisited types W ≤ unvisited types V := by
  unfold unvisited
  refine List.Sublist.length_le ?_
  refine List.monotone_filter_right _ ?_
  intro a ha
  simp only [decide_eq_true_eq] at ha ⊢
  exact fun hv => ha (h a hv)

/-- Collecting a fresh defined key strictly decreases the number of
unvisited keys. -/
theorem unvisited_strict (types : TypesMap) (V : List String) (pt : String)
    (hk : pt ∈ keysOf types) (hv : pt ∉ V) :
    unvisited types (V ++ [pt]) < unvisited types V := by
  unfold unvisited
  have hsub : ((keysOf types).filter (fun k => decide (k ∉ V ++ [pt]))).Sublist
      ((keysOf types).filter (fun k => decide (k ∉ V))) := by
    refine List.monotone_filter_right _ ?_
    intro a ha
    simp only [decide_eq_true_eq, List.mem_append, List.mem_singleton] at ha ⊢
    exact fun hav => ha (Or.inl hav)
  refine Nat.lt_of_le_of_ne hsub.length_le ?_
  intro heq
  have heql := hsub.eq_of_length heq
  have hmem1 : pt ∈ (keysOf types).filter (fun k => decide (k ∉ V)) := by
    simp [List.mem_filter, hk, hv]
  rw [← heql] at hmem1
  simp only [List.mem_filter, decide_eq_true_eq] at hmem1
  exact hmem1.2 (by simp)

/-- Source of a reference chain is a defined type. -/
theorem typeRefs_src_mem {types : TypesMap} {a b : String} (h : TypeRefs types a b) :
    a ∈ keysOf types := by
  induction h with
  | direct hl _ _ _ => exact (lookupType_isSome_iff types _).mp (by simp [hl])
  | trans h1 h2 ih1 ih2 => exact ih1

/-- Target of a reference chain is a defined type. -/
theorem typeRefs_tgt_mem {types : TypesMap} {a b : String} (h : TypeRefs types a b) :
    b ∈ keysOf types := by
  induction h with
  | direct _ _ _ hk => exact hk
  | trans h1 h2 ih1 ih2 => exact ih2

/-- Fold invariant principle for accumulator-passing folds. -/
theorem foldl_inv {α : Type} (step : List String → α → List String)
    (Pp : List String → Prop) :
    ∀ (l : List α), (∀ acc x, x ∈ l → Pp acc → Pp (step acc x)) →
      ∀ acc, Pp acc → Pp (l.foldl step acc) := by
  intro l
  induction l with
  | nil => intro _ acc h; exact h
  | cons x xs ih =>
    intro hstep acc h
    exact ih (fun a y hy ha => hstep a y (by simp [hy]) ha) (step acc x)
      (hstep acc x (by simp) h)

/-- Soundness: everything `find_type_dependencies` collects beyond its
accumulator is the word head of the requested type or transitively
referenced from it. -/
theorem findDepsF_sound (types : TypesMap) :
    ∀ (fuel : Nat) (t : String) (acc : List String), acc.Nodup →
      ∀ x, x ∈ findDepsF types fuel t acc →
        x ∈ acc ∨ (x = wordHead t ∧ wordHead t ∈ keysOf types) ∨
          TypeRefs types (wordHead t) x := by
  intro fuel
  induction fuel with
  | zero => intro t acc _ x hx; exact Or.inl (by simpa [findDepsF] using hx)
  | succ n ih =>
    intro t acc hnd x hx
    by_cases hc : wordHead t ∈ acc ∨ (lookupType types (wordHead t)).isNone
    · left
      unfold findDepsF at hx
      rw [if_pos hc] at hx
      exact hx
    · have hpt : wordHead t ∉ acc := fun hm => hc (Or.inl hm)
      obtain ⟨flds, hl⟩ : ∃ flds, lookupType types (wordHead t) = some flds := by
        rcases ho : lookupType types (wordHead t) with _ | fl
        · exact absurd (Or.inr (by simp [ho])) hc
        · exact ⟨fl, rfl⟩
      have hkey : wordHead t ∈ keysOf types := by
        rw [← lookupType_isSome_iff]
        simp [hl]
      rw [findDepsF_unfold types n t acc hnd hpt flds hl] at hx
      have hinv := foldl_inv (fun a f => findDepsF types n f.kind a)
        (fun a => a.Nodup ∧ ∀ y ∈ a,
          y ∈ acc ∨ (y = wordHead t ∧ wordHead t ∈ keysOf types) ∨
            TypeRefs types (wordHead t) y)
        flds ?_ (acc ++ [wordHead t]) ?_
      · exact hinv.2 x hx
      · intro acc0 f hf h0
        refine ⟨findDepsF_nodup types n f.kind acc0 h0.1, ?_⟩
        intro y hy
        rcases ih f.kind acc0 h0.1 y hy with hmem | hhead | href
        · exact h0.2 y hmem
        · refine Or.inr (Or.inr ?_)
          rw [hhead.1]
          exact TypeRefs.direct hl hf rfl hhead.2
        · have hsrc : wordHead f.kind ∈ keysOf types := typeRefs_src_mem href
          exact Or.inr (Or.inr (TypeRefs.trans (TypeRefs.direct hl hf rfl hsrc) href))
      · refine ⟨by simp [List.nodup_append, hnd, hpt, List.disjoint_singleton], ?_⟩
        intro y hy
        rcases List.mem_append.mp hy with hya | hyp
        · exact Or.inl hya
        · exact Or.inr (Or.inl ⟨by simpa using hyp, hkey⟩)

/-- The requested type itself is always collected when defined and fuel
remains. -/
theorem findDepsF_root (types : TypesMap) (fuel : Nat) (t : String) (V : List String)
    (hfuel : 0 < fuel) (hnd : V.Nodup) (hk : wordHead t ∈ keysOf types) :
    wordHead t ∈ findDepsF types fuel t V := by
  cases fuel with
  | zero => exact absurd hfuel (by simp)
  | succ n =>
    by_cases hv : wordHead t ∈ V
    · exact (findDepsF_pref types (n + 1) t V).subset hv
    · obtain ⟨flds, hl⟩ : ∃ flds, lookupType types (wordHead t) = some flds := by
        have := (lookupType_isSome_iff types (wordHead t)).mpr hk
        rcases ho : lookupType types (wordHead t) with _ | fl
        · rw [ho] at this; simp at this
        · exact ⟨fl, rfl⟩
      rw [findDepsF_unfold types n t V hnd hv flds hl]
      refine (foldl_pref _ (fun a g => findDepsF_pref types n g.kind a) flds
        (V ++ [wordHead t])).subset ?_
      simp

/-- Monotonicity of successor closure in the surrounding list. -/
theorem succClosedIn_mono {types : TypesMap} {u : String} {R Rx : List String}
    (hsub : ∀ y, y ∈ R → y ∈ Rx) (h : SuccClosedIn types u R) : SuccClosedIn types u Rx :=
  fun fl f hl hf hk => hsub _ (h fl f hl hf hk)

/-- Closure of the field fold: with enough fuel, every newly collected
name has its defined successors collected, and the word head of every
processed field is collected when defined. -/
theorem findDepsF_fold_closed (types : TypesMap) (n : Nat)
    (ihn : ∀ (t : String) (V : List String), V.Nodup → unvisited types V < n →
      ∀ u, u ∈ findDepsF types n t V → u ∉ V →
        SuccClosedIn types u (findDepsF types n t V)) :
    ∀ (flds : List SField) (acc : List String), acc.Nodup → unvisited types acc < n →
      (∀ u, u ∈ flds.foldl (fun a f => findDepsF types n f.kind a) acc → u ∉ acc →
          SuccClosedIn types u (flds.foldl (fun a f => findDepsF types n f.kind a) acc)) ∧
        ∀ f ∈ flds, wordHead f.kind ∈ keysOf types →
          wordHead f.kind ∈ flds.foldl (fun a f => findDepsF types n f.kind a) acc := by
  intro flds
  induction flds with
  | nil =>
    intro acc _ _
    exact ⟨fun u hu hnu => absurd hu hnu, by simp⟩
  | cons f fl ih =>
    intro acc hnd hunv
    simp only [List.foldl_cons]
    have hnd2 : (findDepsF types n f.kind acc).Nodup := findDepsF_nodup types n f.kind acc hnd
    have hsub2 : ∀ y, y ∈ acc → y ∈ findDepsF types n f.kind acc :=
      fun y hy => (findDepsF_pref types n f.kind acc).subset hy
    have hunv2 : unvisited types (findDepsF types n f.kind acc) ≤ unvisited types acc :=
      unvisited_mono types acc _ hsub2
    have hres := ih (findDepsF types n f.kind acc) hnd2 (lt_of_le_of_lt hunv2 hunv)
    have hsubres : ∀ y, y ∈ findDepsF types n f.kind acc →
        y ∈ fl.foldl (fun a g => findDepsF types n g.kind a) (findDepsF types n f.kind acc) :=
      fun y hy => (foldl_pref _ (fun a g => findDepsF_pref types n g.kind a) fl
        (findDepsF types n f.kind acc)).subset hy
    constructor
    · intro u hu hnu
      by_cases hu2 : u ∈ findDepsF types n f.kind acc
      · exact succClosedIn_mono hsubres (ihn f.kind acc hnd hunv u hu2 hnu)
      · exact hres.1 u hu hu2
    · intro g hg hk
      rcases List.mem_cons.mp hg with hg | hg
      · subst hg
        refine hsubres _ ?_
        exact findDepsF_root types n g.kind acc (by omega) hnd hk
      · exact hres.2 g hg hk

/-- Closure: with fuel exceeding the number of unvisited keys, the
collected list is closed under defined successors of its new members. -/
theorem findDepsF_closed (types : TypesMap) :
    ∀ (fuel : Nat) (t : String) (V : List String), V.Nodup → unvisited types V < fuel →
      ∀ u, u ∈ findDepsF types fuel t V → u ∉ V →
        SuccClosedIn types u (findDepsF types fuel t V) := by
  intro fuel
  induction fuel with
  | zero => intro t V _ h; exact absurd h (Nat.not_lt_zero _)
  | succ n ihn =>
    intro t V hnd hf u hu hnu
    by_cases hc : wordHead t ∈ V ∨ (lookupType types (wordHead t)).isNone
    · unfold findDepsF at hu
      rw [if_pos hc] at hu
      exact absurd hu hnu
    · have hpt : wordHead t ∉ V := fun hm => hc (Or.inl hm)
      obtain ⟨flds, hl⟩ : ∃ flds, lookupType types (wordHead t) = some flds := by
        rcases ho : lookupType types (wordHead t) with _ | fl
        · exact absurd (Or.inr (by simp [ho])) hc
        · exact ⟨fl, rfl⟩
      have hkey : wordHead t ∈ keysOf types := by
        rw [← lookupType_isSome_iff]
        simp [hl]
      rw [findDepsF_unfold types n t V hnd hpt flds hl] at hu ⊢
      have hstart : (V ++ [wordHead t]).Nodup := by
        simp [List.nodup_append, hnd, hpt, List.disjoint_singleton]
      have hunv1 : unvisited types (V ++ [wordHead t]) < unvisited types V :=
        unvisited_strict types V (wordHead t) hkey hpt
      have hunvn : unvisited types (V ++ [wordHead t]) < n := by omega
      have hfold := findDepsF_fold_closed types n ihn flds (V ++ [wordHead t]) hstart hunvn
      by_cases hua : u ∈ V ++ [wordHead t]
      · have hueq : u = wordHead t := by
          rcases List.mem_append.mp hua with h | h
          · exact absurd h hnu
          · simpa using h
        subst hueq
        intro fl2 f hl2 hf2 hk2
        rw [hl] at hl2
        have hfl2 : fl2 = flds := by injection hl2.symm
        subst hfl2
        exact hfold.2 f hf2 hk2
      · exact hfold.1 u hu hua

/-- Completeness: the collected list is closed under the transitive
reference relation. -/
theorem findDepsF_complete (types : TypesMap) (fuel : Nat) (t : String)
    (hfuel : unvisited types [] < fuel) :
    ∀ u v, TypeRefs types u v → u ∈ findDepsF types fuel t [] →
      v ∈ findDepsF types fuel t [] := by
  intro u v h
  induction h with
  | @direct a b fl f hl hf hwh hk =>
    intro hu
    have hcl := findDepsF_closed types fuel t [] List.nodup_nil hfuel a hu (by simp)
    subst hwh
    exact hcl fl f hl hf hk
  | @trans a b c h1 h2 ih1 ih2 =>
    intro hu
    exact ih2 (ih1 hu)

/-- Characterisation of `find_type_dependencies` from the empty
accumulator: exactly the word head of the requested type together with
everything transitively referenced from it. -/
theorem findDeps_mem_iff (types : TypesMap) (fuel : Nat) (t : String)
    (hfuel : unvisited types [] < fuel) (hk : wordHead t ∈ keysOf types) :
    ∀ x, x ∈ findDepsF types fuel t [] ↔
      x = wordHead t ∨ TypeRefs types (wordHead t) x := by
  intro x
  constructor
  · intro hx
    rcases findDepsF_sound types fuel t [] List.nodup_nil x hx with h | h | h
    · simp at h
    · exact Or.inl h.1
    · exact Or.inr h
  · rintro (rfl | h)
    · exact findDepsF_root types fuel t [] (by omega) List.nodup_nil hk
    · exact findDepsF_complete types fuel t hfuel (wordHead t) x h
        (findDepsF_root types fuel t [] (by omega) List.nodup_nil hk)

/-- Strings with equal character lists are equal. -/
theorem string_ext (a b : String) (h : a.data = b.data) : a = b :=
  String.ext h

/-- The empty string is a left unit for append. -/
theorem string_empty_append (s : String) : "" ++ s = s := by
  refine string_ext _ _ ?_
  simp

/-- String append is associative. -/
theorem string_append_assoc (a b c : String) : a ++ b ++ c = a ++ (b ++ c) := by
  refine string_ext _ _ ?_
  simp

/-- Asymmetry of the lexicographic character order. -/
theorem lexLtChars_asymm : ∀ (x y : List Char),
    lexLtChars x y = true → lexLtChars y x = false := by
  intro x
  induction x with
  | nil =>
    intro y h
    cases y with
    | nil => simp [lexLtChars] at h
    | cons b bs => simp [lexLtChars]
  | cons a as ih =>
    intro y h
    cases y with
    | nil => simp [lexLtChars] at h
    | cons b bs =>
      simp only [lexLtChars] at h ⊢
      by_cases h1 : a.toNat < b.toNat
      · have h2 : ¬ b.toNat < a.toNat := by omega
        simp [h1, h2]
      · by_cases h2 : b.toNat < a.toNat
        · simp [h1, h2] at h
        · simp only [h1, h2, if_false] at h ⊢
          exact ih bs h

/-- Weak transitivity of the lexicographic character order: a strict
step from `x` to `z` passes on either side of any `y`. -/
theorem lexLtChars_trans_or : ∀ (x y z : List Char),
    lexLtChars x z = true → lexLtChars x y = true ∨ lexLtChars y z = true := by
  intro x
  induction x with
  | nil =>
    intro y z h
    cases z with
    | nil => simp [lexLtChars] at h
    | cons c cs =>
      cases y with
      | nil => exact Or.inr h
      | cons b bs => exact Or.inl (by simp [lexLtChars])
  | cons a as ih =>
    intro y z h
    cases z with
    | nil => simp [lexLtChars] at h
    | cons c cs =>
      cases y with
      | nil => exact Or.inr (by simp [lexLtChars])
      | cons b bs =>
        simp only [lexLtChars] at h ⊢
        by_cases hac1 : a.toNat < c.toNat
        · by_cases hab1 : a.toNat < b.toNat
          · exact Or.inl (by simp [hab1])
          · have hbc : b.toNat < c.toNat := by omega
            exact Or.inr (by simp [hbc])
        · by_cases hca : c.toNat < a.toNat
          · simp [hac1, hca] at h
          · simp only [hac1, hca, if_false] at h
            by_cases hab1 : a.toNat < b.toNat
            · exact Or.inl (by simp [hab1])
            · by_cases hba : b.toNat < a.toNat
              · have hbc : b.toNat < c.toNat := by omega
                exact Or.inr (by simp [hbc])
              · rcases ih bs cs h with hx | hx
                · left
                  simp [hab1, hba, hx]
                · right
                  have hbc1 : ¬ b.toNat < c.toNat := by omega
                  have hcb : ¬ c.toNat < b.toNat := by omega
                  simp [hbc1, hcb, hx]

/-- Connectedness: two character lists neither of which is below the
other are equal. -/
theorem lexLtChars_conn : ∀ (x y : List Char),
    lexLtChars x y = false → lexLtChars y x = false → x = y := by
  intro x
  induction x with
  | nil =>
    intro y h1 _
    cases y with
    | nil => rfl
    | cons b bs => simp [lexLtChars] at h1
  | cons a as ih =>
    intro y h1 h2
    cases y with
    | nil => simp [lexLtChars] at h2
    | cons b bs =>
      simp only [lexLtChars] at h1 h2
      by_cases hab : a.toNat < b.toNat
      · simp [hab] at h1
      · by_cases hba : b.toNat < a.toNat
        · simp [hba] at h2
        · have h3 : a.toNat = b.toNat := by omega
          have haeq : a = b := Char.ext (UInt32.ext h3)
          simp only [hab, hba, if_false] at h1 h2
          rw [haeq, ih bs h1 h2]

/-- Totality of the string order. -/
theorem strLeB_total (a b : String) : strLeB a b = true ∨ strLeB b a = true := by
  unfold strLeB
  cases h : lexLtChars b.data a.data with
  | false => simp
  | true =>
    right
    simp [lexLtChars_asymm b.data a.data h]

/-- Transitivity of the string order. -/
theorem strLeB_trans (a b c : String) (h1 : strLeB a b = true) (h2 : strLeB b c = true) :
    strLeB a c = true := by
  unfold strLeB at h1 h2 ⊢
  cases h : lexLtChars c.data a.data with
  | false => simp
  | true =>
    rcases lexLtChars_trans_or c.data b.data a.data h with hx | hx
    · rw [hx] at h2
      simp at h2
    · rw [hx] at h1
      simp at h1

/-- A duplicate-free string list sorted weakly is sorted strictly. -/
theorem pairwise_lt_of_sorted_nodup (l : List String)
    (hs : List.Pairwise (fun a b : String => strLeB a b = true) l) (hnd : l.Nodup) :
    List.Pairwise (fun a b : String => strLtB a b = true) l := by
  refine (hs.and hnd).imp ?_
  rintro a b ⟨hle, hne⟩
  unfold strLeB at hle
  unfold strLtB
  cases hlt : lexLtChars a.data b.data with
  | true => rfl
  | false =>
    have hba : lexLtChars b.data a.data = false := by
      cases hx : lexLtChars b.data a.data
      · rfl
      · rw [hx] at hle
        simp at hle
    exact absurd (string_ext a b (lexLtChars_conn a.data b.data hlt hba)) hne

/-- Rendering fold of `encode_type`: when every chain element is defined
the fold concatenates their renderings. -/
theorem encode_chain_ok (types : TypesMap) :
    ∀ (chain : List String) (acc : String), (∀ t ∈ chain, t ∈ keysOf types) →
      chain.foldlM
          (fun res t =>
            match lookupType types t with
            | none => Except.error (("No type definition specified: ") ++ t)
            | some _ => Except.ok (res ++ renderType types t)) acc
        = Except.ok (acc ++ strJoin (chain.map (renderType types))) := by
  intro chain
  induction chain with
  | nil =>
    intro acc _
    simp only [List.foldlM_nil, List.map_nil]
    rw [show strJoin [] = "" from rfl]
    rw [show acc ++ "" = acc from string_ext _ _ (by simp)]
    rfl
  | cons t rest ih =>
    intro acc hmem
    have htk : t ∈ keysOf types := hmem t (by simp)
    obtain ⟨fl, hfl⟩ : ∃ fl, lookupType types t = some fl := by
      have := (lookupType_isSome_iff types t).mpr htk
      rcases ho : lookupType types t with _ | fl
      · rw [ho] at this
        simp at this
      · exact ⟨fl, rfl⟩
    simp only [List.foldlM_cons, hfl]
    rw [show strJoin ((t :: rest).map (renderType types))
        = renderType types t ++ strJoin (rest.map (renderType types)) from rfl]
    rw [← string_append_assoc]
    exact ih (acc ++ renderType types t) (fun s hs => hmem s (by simp [hs]))

/-- C6: for a type `T` defined in the types map, `encode_type` renders
`T` first followed by the rendered forms of exactly the custom types
transitively referenced from `T`, sorted strictly ascending and without
repeating `T`. -/
theorem c6_encode_type_structure (types : TypesMap) (T : String) (flds : List SField)
    (hword : wordHead T = T) (hT : lookupType types T = some flds) :
    ∃ L : List String,
      encodeTypeE types T = Except.ok (strJoin ((T :: L).map (renderType types))) ∧
        List.Pairwise (fun a b : String => strLtB a b = true) L ∧
        T ∉ L ∧
        ∀ D, D ∈ L ↔ D ≠ T ∧ TypeRefs types T D := by
  have hTk : T ∈ keysOf types := (lookupType_isSome_iff types T).mp (by simp [hT])
  have hfuel : unvisited types [] < types.length + 1 := by
    unfold unvisited
    have hflt : (keysOf types).filter (fun k => decide (k ∉ ([] : List String)))
        = keysOf types := by
      apply List.filter_eq_self.mpr
      intro a _
      simp
    rw [hflt]
    unfold keysOf
    simp
  have hmem : ∀ x, x ∈ findDepsF types (types.length + 1) T [] ↔
      x = T ∨ TypeRefs types T x := by
    intro x
    have hx := findDeps_mem_iff types (types.length + 1) T hfuel (by rw [hword]; exact hTk) x
    rwa [hword] at hx
  have hndd : (findDepsF types (types.length + 1) T []).Nodup :=
    findDepsF_nodup types _ T [] List.nodup_nil
  have hperm : (sortStrings (findDepsF types (types.length + 1) T [])).Perm
      (findDepsF types (types.length + 1) T []) := List.perm_insertionSort _ _
  have hsortedle : List.Pairwise (fun a b : String => strLeB a b = true)
      (sortStrings (findDepsF types (types.length + 1) T [])) :=
    @List.sorted_insertionSort String (fun a b => strLeB a b = true) _
      ⟨strLeB_total⟩ ⟨strLeB_trans⟩ _
  have hnds : (sortStrings (findDepsF types (types.length + 1) T [])).Nodup :=
    hperm.nodup_iff.mpr hndd
  have hsortedlt := pairwise_lt_of_sorted_nodup _ hsortedle hnds
  refine ⟨(sortStrings (findDepsF types (types.length + 1) T [])).filter
    (fun dep => dep != T), ?_, hsortedlt.filter _, ?_, ?_⟩
  · have hstep : encodeTypeE types T
        = (T :: (sortStrings (findDepsF types (types.length + 1) T [])).filter
            (fun dep => dep != T)).foldlM
          (fun res t =>
            match lookupType types t with
            | none => Except.error (("No type definition specified: ") ++ t)
            | some _ => Except.ok (res ++ renderType types t)) ("") := rfl
    rw [hstep, encode_chain_ok]
    · rw [string_empty_append]
    · intro s hs
      rcases List.mem_cons.mp hs with hs | hs
      · subst hs
        exact hTk
      · have hss := List.mem_filter.mp hs
        have hsd := hperm.mem_iff.mp hss.1
        rcases (hmem s).mp hsd with hst | hst
        · rw [hst] at hss
          simp at hss
        · exact typeRefs_tgt_mem hst
  · intro hTL
    have := List.of_mem_filter hTL
    simp at this
  · intro D
    constructor
    · intro hD
      have hDf := List.mem_filter.mp hD
      have hDne : D ≠ T := by simpa using hDf.2
      rcases (hmem D).mp (hperm.mem_iff.mp hDf.1) with hDt | hDt
      · exact absurd hDt hDne
      · exact ⟨hDne, hDt⟩
    · rintro ⟨hDne, hDt⟩
      refine List.mem_filter.mpr ⟨hperm.mem_iff.mpr ((hmem D).mpr (Or.inr hDt)), by simpa⟩

/-- Witness for C6 at the concrete Mail/Person types map. -/
theorem c6_encode_type_structure_witness :
    (wordHead "Mail" = "Mail" ∧
      lookupType
        [("EIP712Domain",
          [⟨"name", "string"⟩, ⟨"version", "string"⟩, ⟨"chainId", "uint256"⟩,
           ⟨"verifyingContract", "address"⟩]),
         ("Person", [⟨"name", "string"⟩, ⟨"wallet", "address"⟩]),
         ("Mail", [⟨"from", "Person"⟩, ⟨"to", "Person"⟩, ⟨"contents", "string"⟩])]
        "Mail" = some [⟨"from", "Person"⟩, ⟨"to", "Person"⟩, ⟨"contents", "string"⟩]) ∧
      ∃ L : List String,
        encodeTypeE
            [("EIP712Domain",
              [⟨"name", "string"⟩, ⟨"version", "string"⟩, ⟨"chainId", "uint256"⟩,
               ⟨"verifyingContract", "address"⟩]),
             ("Person", [⟨"name", "string"⟩, ⟨"wallet", "address"⟩]),
             ("Mail", [⟨"from", "Person"⟩, ⟨"to", "Person"⟩, ⟨"contents", "string"⟩])]
            "Mail"
          = Except.ok (strJoin (("Mail" :: L).map (renderType
              [("EIP712Domain",
                [⟨"name", "string"⟩, ⟨"version", "string"⟩, ⟨"chainId", "uint256"⟩,
                 ⟨"verifyingContract", "address"⟩]),
               ("Person", [⟨"name", "string"⟩, ⟨"wallet", "address"⟩]),
               ("Mail", [⟨"from", "Person"⟩, ⟨"to", "Person"⟩, ⟨"contents", "string"⟩])]))) ∧
          List.Pairwise (fun a b : String => strLtB a b = true) L ∧
          "Mail" ∉ L ∧
          ∀ D, D ∈ L ↔ D ≠ "Mail" ∧ TypeRefs
            [("EIP712Domain",
              [⟨"name", "string"⟩, ⟨"version", "string"⟩, ⟨"chainId", "uint256"⟩,
               ⟨"verifyingContract", "address"⟩]),
             ("Person", [⟨"name", "string"⟩, ⟨"wallet", "address"⟩]),
             ("Mail", [⟨"from", "Person"⟩, ⟨"to", "Person"⟩, ⟨"contents", "string"⟩])]
            "Mail" D :=
  ⟨⟨by decide, by decide⟩,
   c6_encode_type_structure _ "Mail" [⟨"from", "Person"⟩, ⟨"to", "Person"⟩, ⟨"contents", "string"⟩]
     (by decide) (by decide)⟩

end JadeSigner
